import Mathlib

/-
  Verification of the mruby/c runtime sources (symbol.c, load.c, c_string.c,
  c_object.c) against their natural-language specification.

  The C sources are shallowly embedded: C strings become lists of byte values
  (`List Nat`), machine integers become `Nat` with explicit `% 2^16` where the
  C truncates, the global symbol table becomes an explicit `SymTab` value that
  is threaded through the functions, and the allocator becomes an explicit
  state with a budget (an allocation succeeds iff budget is positive, matching
  the C null-return failure mode).
-/

namespace Symt

/-- A C string: the list of its (non-NUL) byte values.  The C code stores
`const char *` pointers and compares them with `strcmp`; two pointers are
interchangeable exactly when their byte contents agree, so the byte list is
the faithful value. -/
abbrev BStr := List Nat

/-- Embedding of `calc_hash` (symbol.c lines 72-80): `h = h * 17 + *str++` on
a `uint16_t` accumulator, i.e. modulo 2^16 at every step.  Bytes are taken as
unsigned character values. -/
def calc_hash (s : BStr) : Nat :=
  s.foldl (fun h c => (h * 17 + c) % 65536) 0

/-- One entry of the `sym_index` table (struct SYM_INDEX, symbol.c lines
49-56).  `left`/`right` are the intrusive binary-tree child indices of the
MRBC_SYMBOL_SEARCH_BTREE build (0 means "no child"); the LINER build simply
ignores them.  `cstr = none` models the NULL string pointer of a slot that
was never filled (the static array is zero-initialized / memset to 0);
comparing a query against such a NULL pointer can never succeed. -/
structure SymEntry where
  hash : Nat
  left : Nat
  right : Nat
  cstr : Option BStr
deriving Repr, DecidableEq

/-- The all-zero entry of the zero-initialized static array. -/
def emptyEntry : SymEntry := ⟨0, 0, 0, none⟩

/-- The table entry appended by `add_index` (symbol.c lines 137-138): the
hash, the string pointer, and (BTREE build) both children empty. -/
def newEntry (h : Nat) (s : BStr) : SymEntry := ⟨h, 0, 0, some s⟩

/-- The global symbol table: `sym_index[0 .. sym_index_pos-1]`.  Slots at and
beyond `entries.length` are unfilled and read as `emptyEntry`. -/
structure SymTab where
  entries : List SymEntry
deriving Repr, DecidableEq

/-- Reading `sym_index[i]`: the stored entry, or the zeroed slot. -/
def getE (t : List SymEntry) (i : Nat) : SymEntry := t.getD i emptyEntry

/-- Linear scan of `search_index` in the MRBC_SYMBOL_SEARCH_LINER build
(symbol.c lines 92-99): first index whose hash and string both match. -/
def linFind (t : List SymEntry) (h : Nat) (s : BStr) (i : Nat) : Int :=
  match t with
  | [] => -1
  | e :: rest =>
    if e.hash = h ∧ e.cstr = some s then (i : Int)
    else linFind rest h s (i + 1)

/-- Embedding of `search_index`, MRBC_SYMBOL_SEARCH_LINER strategy. -/
def search_index_liner (t : SymTab) (h : Nat) (s : BStr) : Int :=
  linFind t.entries h s 0

/-- One walk of the intrusive binary tree of `search_index` in the
MRBC_SYMBOL_SEARCH_BTREE build (symbol.c lines 102-115).  The C `do ... while
(i != 0)` loop is modelled with fuel; `search_index_btree` supplies enough
fuel for every table built by `add_index` (proved below), so exhausted fuel
(which would be a non-terminating C loop) returns the same -1 sentinel. -/
def btSearchAux (t : List SymEntry) (h : Nat) (s : BStr) : Nat → Nat → Int
  | 0, _ => -1
  | fuel + 1, i =>
    let e := getE t i
    if e.hash = h ∧ e.cstr = some s then (i : Int)
    else
      let j := if h < e.hash then e.left else e.right
      if j = 0 then -1 else btSearchAux t h s fuel j

/-- Embedding of `search_index`, MRBC_SYMBOL_SEARCH_BTREE strategy. -/
def search_index_btree (t : SymTab) (h : Nat) (s : BStr) : Int :=
  btSearchAux t.entries h s (t.entries.length + 1) 0

/-- The tree-insertion walk of `add_index` in the BTREE build (symbol.c lines
140-160): descend from the root by hash comparison and hang the new node
`symId` on the first empty child pointer.  Fuel as in `btSearchAux`. -/
def btInsAux (t : List SymEntry) (h : Nat) (symId : Nat) : Nat → Nat → List SymEntry
  | 0, _ => t
  | fuel + 1, i =>
    let e := getE t i
    if h < e.hash then
      if e.left = 0 then t.set i { e with left := symId }
      else btInsAux t h symId fuel e.left
    else
      if e.right = 0 then t.set i { e with right := symId }
      else btInsAux t h symId fuel e.right

/-- Embedding of `add_index` (symbol.c lines 126-163) as compiled in the
LINER build: refuse when the table is full, otherwise append. -/
def add_index_liner (max : Nat) (t : SymTab) (h : Nat) (s : BStr) : SymTab × Int :=
  if max ≤ t.entries.length then (t, -1)
  else (⟨t.entries ++ [newEntry h s]⟩, (t.entries.length : Int))

/-- Embedding of `add_index` as compiled in the BTREE build: refuse when
full, otherwise append and hang the new node into the intrusive tree. -/
def add_index_btree (max : Nat) (t : SymTab) (h : Nat) (s : BStr) : SymTab × Int :=
  if max ≤ t.entries.length then (t, -1)
  else
    let symId := t.entries.length
    let t1 := t.entries ++ [newEntry h s]
    (⟨btInsAux t1 h symId (t1.length + 1) 0⟩, (symId : Int))

/-- Embedding of `mrbc_str_to_symid` (symbol.c lines 185-192), LINER build. -/
def mrbc_str_to_symid_liner (max : Nat) (t : SymTab) (s : BStr) : SymTab × Int :=
  let h := calc_hash s
  let id := search_index_liner t h s
  if 0 ≤ id then (t, id) else add_index_liner max t h s

/-- Embedding of `mrbc_str_to_symid`, BTREE build (the default strategy,
symbol.c lines 34-36). -/
def mrbc_str_to_symid_btree (max : Nat) (t : SymTab) (s : BStr) : SymTab × Int :=
  let h := calc_hash s
  let id := search_index_btree t h s
  if 0 ≤ id then (t, id) else add_index_btree max t h s

/-- Interning a whole sequence of strings, LINER build. -/
def buildLiner (max : Nat) (ss : List BStr) : SymTab :=
  ss.foldl (fun t s => (mrbc_str_to_symid_liner max t s).1) ⟨[]⟩

/-- Interning a whole sequence of strings, BTREE build. -/
def buildBtree (max : Nat) (ss : List BStr) : SymTab :=
  ss.foldl (fun t s => (mrbc_str_to_symid_btree max t s).1) ⟨[]⟩

/-- Position scan used by the specification-side answer of claim C1. -/
def registeredIdAux (ss : List BStr) (q : BStr) (i : Nat) : Int :=
  match ss with
  | [] => -1
  | s :: rest => if s = q then (i : Int) else registeredIdAux rest q (i + 1)

/-- Specification-side definition for claim C1, following the spec words
"the id under which an equal string was registered, or -1 if no equal string
was registered": the position of the query in the interned sequence. -/
def registeredId (ss : List BStr) (q : BStr) : Int :=
  registeredIdAux ss q 0

/-! Proof infrastructure for the symbol table. -/

/-- Child pointer of a node in direction `d` (`true` = left). -/
def childOf (e : SymEntry) : Bool → Nat
  | true => e.left
  | false => e.right

/-- Overwrite the child pointer of a node in direction `d`. -/
def setChild (e : SymEntry) : Bool → Nat → SymEntry
  | true, c => { e with left := c }
  | false, c => { e with right := c }

/-- The strategy-independent content of the table: hash and string of each
entry in order.  Both builds produce the same `pairMap`. -/
def pairMap (t : List SymEntry) : List (Nat × Option BStr) :=
  t.map (fun e => (e.hash, e.cstr))

/-- Well-formedness of the intrusive tree pointers: every non-null child
pointer points strictly forward and into the filled part of the table.  This
holds because `add_index` always hangs the freshly appended (largest) index
below an existing node. -/
def childInv (t : List SymEntry) : Prop :=
  ∀ i, i < t.length → ∀ d : Bool, childOf (getE t i) d ≠ 0 →
    i < childOf (getE t i) d ∧ childOf (getE t i) d < t.length

/-- No filled slot stores the string `s`. -/
def unstored (t : List SymEntry) (s : BStr) : Prop :=
  ∀ i, i < t.length → (getE t i).cstr ≠ some s

/-- Outcome of a binary-tree walk: either the matching node, or the node and
direction at which the walk fell off the tree. -/
inductive BtOut where
  | found : Nat → BtOut
  | miss : Nat → Bool → BtOut
deriving Repr, DecidableEq

/-- The tree walk of `search_index` (BTREE build) instrumented to report the
fall-off point instead of the bare -1. -/
def btWalk (t : List SymEntry) (h : Nat) (s : BStr) : Nat → Nat → Option BtOut
  | 0, _ => none
  | fuel + 1, i =>
    let e := getE t i
    if e.hash = h ∧ e.cstr = some s then some (.found i)
    else
      let j := childOf e (decide (h < e.hash))
      if j = 0 then some (.miss i (decide (h < e.hash))) else btWalk t h s fuel j

/-- Result extraction: a found node is its index, everything else is -1. -/
def outId : Option BtOut → Int
  | some (.found k) => (k : Int)
  | _ => -1

theorem btSearchAux_eq_walk (t : List SymEntry) (h : Nat) (s : BStr) :
    ∀ fuel i, btSearchAux t h s fuel i = outId (btWalk t h s fuel i) := by
  intro fuel
  induction fuel with
  | zero => intro i; rfl
  | succ f ih =>
    intro i
    simp only [btSearchAux, btWalk]
    by_cases hm : (getE t i).hash = h ∧ (getE t i).cstr = some s
    · simp [hm, outId]
    · by_cases hd : h < (getE t i).hash
      · by_cases hz : (getE t i).left = 0
        · simp [hm, hd, childOf, hz, outId]
        · simp [hm, hd, childOf, hz, ih]
      · by_cases hz : (getE t i).right = 0
        · simp [hm, hd, childOf, hz, outId]
        · simp [hm, hd, childOf, hz, ih]

theorem getE_append_lt (t l : List SymEntry) (i : Nat) (hi : i < t.length) :
    getE (t ++ l) i = getE t i := by
  simp [getE, List.getD, List.getElem?_append_left hi]

theorem getE_append_self (t : List SymEntry) (e : SymEntry) :
    getE (t ++ [e]) t.length = e := by
  simp [getE, List.getD]

theorem getE_set_ne (t : List SymEntry) (p i : Nat) (e : SymEntry) (hne : i ≠ p) :
    getE (t.set p e) i = getE t i := by
  simp [getE, List.getD, List.getElem?_set_ne (Ne.symm hne)]

theorem getE_set_self (t : List SymEntry) (p : Nat) (e : SymEntry) (hp : p < t.length) :
    getE (t.set p e) p = e := by
  simp [getE, List.getD, List.getElem?_set_self, hp]

theorem getE_ge_len (t : List SymEntry) (i : Nat) (hi : t.length ≤ i) :
    getE t i = emptyEntry := by
  simp [getE, List.getD, List.getElem?_eq_none hi]

theorem childOf_empty (d : Bool) : childOf emptyEntry d = 0 := by
  cases d <;> rfl

theorem btWalk_fuel_succ (t : List SymEntry) (h : Nat) (s : BStr) :
    ∀ fuel i o, btWalk t h s fuel i = some o → btWalk t h s (fuel + 1) i = some o := by
  intro fuel
  induction fuel with
  | zero => intro i o hw; exact absurd hw (by simp [btWalk])
  | succ f ih =>
    intro i o hw
    rw [btWalk] at hw ⊢
    by_cases hm : (getE t i).hash = h ∧ (getE t i).cstr = some s
    · simpa [hm] using hw
    · simp only [hm, if_false] at hw ⊢
      by_cases hz : childOf (getE t i) (decide (h < (getE t i).hash)) = 0
      · simpa [hz] using hw
      · simp only [hz, if_false] at hw ⊢
        exact ih _ o hw

theorem btWalk_fuel_mono (t : List SymEntry) (h : Nat) (s : BStr) :
    ∀ fuel fuel' i o, fuel ≤ fuel' → btWalk t h s fuel i = some o →
      btWalk t h s fuel' i = some o := by
  intro fuel fuel' i o hle hw
  induction fuel', hle using Nat.le_induction with
  | base => exact hw
  | succ n hn ih => exact btWalk_fuel_succ t h s n i o ih

theorem btWalk_isSome (t : List SymEntry) (h : Nat) (s : BStr) (hc : childInv t) :
    ∀ fuel i, t.length + 1 ≤ fuel + i → 1 ≤ fuel → (btWalk t h s fuel i).isSome := by
  intro fuel
  induction fuel using Nat.strong_induction_on with
  | _ fuel ih =>
    intro i hfi hf
    match fuel, hf with
    | f + 1, _ =>
      rw [btWalk]
      by_cases hm : (getE t i).hash = h ∧ (getE t i).cstr = some s
      · simp [hm]
      · simp only [hm, if_false]
        by_cases hi : i < t.length
        · by_cases hz : childOf (getE t i) (decide (h < (getE t i).hash)) = 0
          · simp [hz]
          · have hij := hc i hi _ hz
            simp only [hz, if_false]
            exact ih f (by omega) _ (by omega) (by omega)
        · have he : getE t i = emptyEntry := getE_ge_len t i (by omega)
          have hz : childOf (getE t i) (decide (h < (getE t i).hash)) = 0 := by
            rw [he]; exact childOf_empty _
          simp [hz]

theorem btWalk_not_found (t : List SymEntry) (h : Nat) (s : BStr) (hu : unstored t s) :
    ∀ fuel i k, btWalk t h s fuel i ≠ some (.found k) := by
  intro fuel
  induction fuel with
  | zero => intro i k; simp [btWalk]
  | succ f ih =>
    intro i k
    rw [btWalk]
    have hm : ¬((getE t i).hash = h ∧ (getE t i).cstr = some s) := by
      intro hm
      by_cases hi : i < t.length
      · exact hu i hi hm.2
      · rw [getE_ge_len t i (by omega)] at hm
        exact Option.noConfusion hm.2
    simp only [hm, if_false]
    by_cases hz : childOf (getE t i) (decide (h < (getE t i).hash)) = 0
    · simp [hz]
    · simp only [hz, if_false]
      exact ih _ k

theorem btWalk_miss_props (t : List SymEntry) (h : Nat) (s : BStr) (hc : childInv t) :
    ∀ fuel i p d, i < t.length → btWalk t h s fuel i = some (.miss p d) →
      p < t.length ∧ childOf (getE t p) d = 0 := by
  intro fuel
  induction fuel with
  | zero => intro i p d _ hw; exact absurd hw (by simp [btWalk])
  | succ f ih =>
    intro i p d hi hw
    rw [btWalk] at hw
    by_cases hm : (getE t i).hash = h ∧ (getE t i).cstr = some s
    · simp [hm] at hw
    · simp only [hm, if_false] at hw
      by_cases hz : childOf (getE t i) (decide (h < (getE t i).hash)) = 0
      · simp only [hz, if_true] at hw
        obtain ⟨hp, hd⟩ : i = p ∧ decide (h < (getE t i).hash) = d := by
          cases hw; exact ⟨rfl, rfl⟩
        subst hp; subst hd
        exact ⟨hi, hz⟩
      · simp only [hz, if_false] at hw
        have hij := hc i hi _ hz
        exact ih _ p d hij.2 hw

theorem setChild_hash (e : SymEntry) (d : Bool) (c : Nat) : (setChild e d c).hash = e.hash := by
  cases d <;> rfl

theorem setChild_cstr (e : SymEntry) (d : Bool) (c : Nat) : (setChild e d c).cstr = e.cstr := by
  cases d <;> rfl

theorem childOf_setChild_same (e : SymEntry) (d : Bool) (c : Nat) :
    childOf (setChild e d c) d = c := by
  cases d <;> rfl

theorem childOf_setChild_other (e : SymEntry) (d d' : Bool) (c : Nat) (hd : d ≠ d') :
    childOf (setChild e d c) d' = childOf e d' := by
  cases d <;> cases d' <;> first | exact absurd rfl hd | rfl

theorem childOf_new (h : Nat) (s : BStr) (d : Bool) :
    childOf (newEntry h s) d = 0 := by
  cases d <;> rfl

/-- The tree-insertion walk of `add_index` hangs the new node exactly at the
point where the instrumented search walk for the new string falls off the
tree: insertion and search take the same hash-comparison path because the new
string matches no existing entry. -/
theorem btInsAux_eq_walk (t : List SymEntry) (h : Nat) (s : BStr)
    (hc : childInv t) (hu : unstored t s) :
    ∀ fuel i, i < t.length →
      btInsAux (t ++ [newEntry h s]) h t.length fuel i =
        (match btWalk t h s fuel i with
         | some (.miss p d) =>
             (t ++ [newEntry h s]).set p (setChild (getE t p) d t.length)
         | _ => t ++ [newEntry h s]) := by
  intro fuel
  induction fuel with
  | zero => intro i _; simp [btInsAux, btWalk]
  | succ f ih =>
    intro i hi
    rw [btInsAux, btWalk]
    rw [getE_append_lt _ _ i hi]
    have hm : ¬((getE t i).hash = h ∧ (getE t i).cstr = some s) := fun hm => hu i hi hm.2
    simp only [hm, if_false]
    by_cases hd : h < (getE t i).hash
    · rw [if_pos hd, decide_eq_true hd]
      simp only [childOf]
      by_cases hz : (getE t i).left = 0
      · rw [if_pos hz, if_pos hz]
        simp [setChild]
      · rw [if_neg hz, if_neg hz]
        exact ih (getE t i).left (hc i hi true (by simpa [childOf] using hz)).2
    · rw [if_neg hd, decide_eq_false hd]
      simp only [childOf]
      by_cases hz : (getE t i).right = 0
      · rw [if_pos hz, if_pos hz]
        simp [setChild]
      · rw [if_neg hz, if_neg hz]
        exact ih (getE t i).right (hc i hi false (by simpa [childOf] using hz)).2

theorem getE_ins_ne (t : List SymEntry) (en : SymEntry) (p : Nat) (ep : SymEntry)
    (i : Nat) (hi : i < t.length) (hne : i ≠ p) :
    getE ((t ++ [en]).set p ep) i = getE t i := by
  rw [getE_set_ne _ _ _ _ hne, getE_append_lt _ _ _ hi]

theorem getE_ins_p (t : List SymEntry) (en : SymEntry) (p : Nat) (ep : SymEntry)
    (hp : p < t.length) :
    getE ((t ++ [en]).set p ep) p = ep := by
  apply getE_set_self
  simp only [List.length_append, List.length_singleton]
  omega

theorem getE_ins_last (t : List SymEntry) (en : SymEntry) (p : Nat) (ep : SymEntry)
    (hp : p < t.length) :
    getE ((t ++ [en]).set p ep) t.length = en := by
  rw [getE_set_ne _ _ _ _ (by omega)]
  simp [getE, List.getD_eq_getElem?_getD, List.getElem?_concat_length]

/-- How the result of a search walk changes when the new node gets hung at
fall-off point `(p, d)`: a walk that found its node still finds it, a walk
that fell off elsewhere still falls off there, and a walk that fell off
exactly at `(p, d)` now continues into the new node, where it either matches
the new string or falls off under the new leaf. -/
def extendOut (p : Nat) (d : Bool) (n hn : Nat) (sn : BStr) (hq : Nat) (q : BStr) :
    BtOut → BtOut
  | .found k => .found k
  | .miss pp dd =>
    if pp = p ∧ dd = d then
      (if hn = hq ∧ sn = q then .found n else .miss n (decide (hq < hn)))
    else .miss pp dd

theorem btWalk_after_ins (t : List SymEntry) (hn : Nat) (sn : BStr) (hq : Nat) (q : BStr)
    (hc : childInv t) (p : Nat) (d : Bool) (hp : p < t.length)
    (hz : childOf (getE t p) d = 0) :
    ∀ fuel i o, i < t.length → btWalk t hq q fuel i = some o →
      btWalk ((t ++ [newEntry hn sn]).set p (setChild (getE t p) d t.length)) hq q
          (fuel + 1) i
        = some (extendOut p d t.length hn sn hq q o) := by
  intro fuel
  induction fuel with
  | zero => intro i o _ hw; exact absurd hw (by simp [btWalk])
  | succ f ih =>
    intro i o hi hw
    rw [btWalk] at hw
    rw [btWalk]
    by_cases hip : i = p
    · subst hip
      rw [getE_ins_p t _ i _ hi, setChild_hash, setChild_cstr]
      by_cases hm : (getE t i).hash = hq ∧ (getE t i).cstr = some q
      · rw [if_pos hm] at hw
        cases hw
        rw [if_pos hm]
        rfl
      · rw [if_neg hm] at hw
        rw [if_neg hm]
        by_cases hdd : decide (hq < (getE t i).hash) = d
        · rw [hdd] at hw ⊢
          rw [childOf_setChild_same]
          rw [hz] at hw
          rw [if_pos rfl] at hw
          cases hw
          rw [if_neg (by omega : ¬t.length = 0)]
          rw [btWalk]
          rw [getE_ins_last t _ i _ hi]
          by_cases hmn : hn = hq ∧ sn = q
          · rw [if_pos (by simpa [newEntry] using hmn)]
            simp [extendOut, hmn]
          · rw [if_neg (by simpa [newEntry] using hmn)]
            rw [if_pos (childOf_new hn sn _)]
            simp [extendOut, hmn, newEntry]
        · rw [childOf_setChild_other _ _ _ _ (fun he => hdd he.symm)]
          by_cases hz2 : childOf (getE t i) (decide (hq < (getE t i).hash)) = 0
          · rw [if_pos hz2] at hw
            cases hw
            rw [if_pos hz2]
            simp [extendOut, hdd]
          · rw [if_neg hz2] at hw
            rw [if_neg hz2]
            exact ih _ o (hc i hi _ hz2).2 hw
    · rw [getE_ins_ne t _ p _ i hi hip]
      by_cases hm : (getE t i).hash = hq ∧ (getE t i).cstr = some q
      · rw [if_pos hm] at hw
        cases hw
        rw [if_pos hm]
        rfl
      · rw [if_neg hm] at hw
        rw [if_neg hm]
        by_cases hz2 : childOf (getE t i) (decide (hq < (getE t i).hash)) = 0
        · rw [if_pos hz2] at hw
          cases hw
          rw [if_pos hz2]
          simp [extendOut, hip]
        · rw [if_neg hz2] at hw
          rw [if_neg hz2]
          exact ih _ o (hc i hi _ hz2).2 hw

theorem getE_eq_getElem (l : List SymEntry) (i : Nat) (hi : i < l.length) :
    getE l i = l[i] := by
  simp [getE, List.getD_eq_getElem?_getD, List.getElem?_eq_getElem hi]

theorem linFind_congr (h : Nat) (q : BStr) :
    ∀ (l l' : List SymEntry), pairMap l = pairMap l' →
      ∀ i, linFind l h q i = linFind l' h q i := by
  intro l
  induction l with
  | nil =>
    intro l' hpm i
    cases l' with
    | nil => rfl
    | cons e rest => exact absurd hpm (by simp [pairMap])
  | cons e rest ih =>
    intro l' hpm i
    cases l' with
    | nil => exact absurd hpm (by simp [pairMap])
    | cons e2 rest2 =>
      simp only [pairMap, List.map_cons, List.cons.injEq, Prod.mk.injEq] at hpm
      obtain ⟨⟨hh, hc⟩, hrest⟩ := hpm
      rw [linFind, linFind, hh, hc]
      by_cases hm : e2.hash = h ∧ e2.cstr = some q
      · rw [if_pos hm, if_pos hm]
      · rw [if_neg hm, if_neg hm]
        exact ih rest2 hrest (i + 1)

theorem linFind_append_one (h : Nat) (q : BStr) (e : SymEntry) :
    ∀ (l : List SymEntry) (i : Nat),
      linFind (l ++ [e]) h q i =
        (if linFind l h q i = -1 then
          (if e.hash = h ∧ e.cstr = some q then ((i + l.length : Nat) : Int) else -1)
         else linFind l h q i) := by
  intro l
  induction l with
  | nil =>
    intro i
    simp [linFind]
  | cons e0 rest ih =>
    intro i
    rw [List.cons_append, linFind, linFind]
    by_cases hm : e0.hash = h ∧ e0.cstr = some q
    · rw [if_pos hm, if_pos hm, if_neg (by omega : ¬(i : Int) = -1)]
    · rw [if_neg hm, if_neg hm, ih (i + 1)]
      simp only [List.length_cons]
      by_cases hr : linFind rest h q (i + 1) = -1
      · rw [if_pos hr, if_pos hr]
        by_cases hme : e.hash = h ∧ e.cstr = some q
        · rw [if_pos hme, if_pos hme]
          congr 1
          omega
        · rw [if_neg hme, if_neg hme]
      · rw [if_neg hr, if_neg hr]

theorem linFind_unstored (h : Nat) (q : BStr) :
    ∀ (l : List SymEntry), unstored l q → ∀ i, linFind l h q i = -1 := by
  intro l
  induction l with
  | nil => intro _ i; rfl
  | cons e rest ih =>
    intro hu i
    rw [linFind]
    have he : ¬(e.hash = h ∧ e.cstr = some q) := by
      intro hm
      exact hu 0 (by simp) hm.2
    rw [if_neg he]
    refine ih (fun j hj => ?_) (i + 1)
    exact hu (j + 1) (by simpa using Nat.succ_lt_succ hj)

theorem linFind_neg_no_match (h : Nat) (q : BStr) :
    ∀ (l : List SymEntry) (i : Nat), linFind l h q i = -1 →
      ∀ j, j < l.length → ¬((getE l j).hash = h ∧ (getE l j).cstr = some q) := by
  intro l
  induction l with
  | nil => intro i _ j hj; simp at hj
  | cons e rest ih =>
    intro i hl j hj
    rw [linFind] at hl
    by_cases hm : e.hash = h ∧ e.cstr = some q
    · rw [if_pos hm] at hl
      exact absurd hl (by omega)
    · rw [if_neg hm] at hl
      cases j with
      | zero => exact hm
      | succ j2 => exact ih (i + 1) hl j2 (by simpa using hj)

theorem linFind_neg_or_nonneg (h : Nat) (q : BStr) :
    ∀ (l : List SymEntry) (i : Nat), linFind l h q i = -1 ∨ 0 ≤ linFind l h q i := by
  intro l
  induction l with
  | nil => intro i; left; rfl
  | cons e rest ih =>
    intro i
    rw [linFind]
    by_cases hm : e.hash = h ∧ e.cstr = some q
    · rw [if_pos hm]; right; omega
    · rw [if_neg hm]; exact ih (i + 1)

theorem linFind_registered (q : BStr) :
    ∀ (ss : List BStr) (l : List SymEntry) (i : Nat),
      pairMap l = ss.map (fun s => (calc_hash s, some s)) →
      linFind l (calc_hash q) q i = registeredIdAux ss q i := by
  intro ss
  induction ss with
  | nil =>
    intro l i hpm
    cases l with
    | nil => rfl
    | cons e rest => exact absurd hpm (by simp [pairMap])
  | cons s rest ih =>
    intro l i hpm
    cases l with
    | nil => exact absurd hpm (by simp [pairMap])
    | cons e lrest =>
      simp only [pairMap, List.map_cons, List.cons.injEq, Prod.mk.injEq] at hpm
      obtain ⟨⟨hh, hc⟩, hrest⟩ := hpm
      rw [linFind, registeredIdAux]
      by_cases hsq : s = q
      · rw [if_pos (by rw [hh, hc, hsq] ; exact ⟨rfl, rfl⟩), if_pos hsq]
      · have hm : ¬(e.hash = calc_hash q ∧ e.cstr = some q) := by
          intro hm
          rw [hc] at hm
          exact hsq (Option.some.inj hm.2)
        rw [if_neg hm, if_neg hsq]
        exact ih lrest (i + 1) hrest

theorem unstored_iff_mem (l : List SymEntry) (s : BStr) :
    unstored l s ↔ ∀ e ∈ l, e.cstr ≠ some s := by
  constructor
  · intro hu e he
    obtain ⟨i, hi, hei⟩ := List.mem_iff_getElem.mp he
    rw [← hei, ← getE_eq_getElem l i hi]
    exact hu i hi
  · intro hal i hi
    rw [getE_eq_getElem l i hi]
    exact hal _ (List.getElem_mem hi)

theorem unstored_congr (l l' : List SymEntry) (s : BStr) (hpm : pairMap l = pairMap l') :
    unstored l s → unstored l' s := by
  rw [unstored_iff_mem, unstored_iff_mem]
  intro hal e2 he2
  have hmem : (e2.hash, e2.cstr) ∈ pairMap l := by
    rw [hpm]
    exact List.mem_map.mpr ⟨e2, he2, rfl⟩
  obtain ⟨e, he, heq⟩ := List.mem_map.mp hmem
  have : e.cstr = e2.cstr := congrArg Prod.snd heq
  rw [← this]
  exact hal e he

theorem unstored_append_one (l : List SymEntry) (e : SymEntry) (s : BStr)
    (hu : unstored l s) (he : e.cstr ≠ some s) : unstored (l ++ [e]) s := by
  rw [unstored_iff_mem] at hu ⊢
  intro e2 he2
  rcases List.mem_append.mp he2 with h2 | h2
  · exact hu e2 h2
  · rw [List.mem_singleton.mp h2]
    exact he

theorem list_set_self {α : Type} (m : List α) (p : Nat) (a : α) (hm : m[p]? = some a) :
    m.set p a = m := by
  have hp : p < m.length := by
    by_contra hnp
    rw [List.getElem?_eq_none (by omega)] at hm
    exact Option.noConfusion hm
  apply List.ext_getElem?
  intro n
  by_cases hn : n = p
  · subst hn
    rw [List.getElem?_set_self hp, ← hm]
  · rw [List.getElem?_set_ne (fun he => hn he.symm)]

theorem getElem?_eq_getE (t : List SymEntry) (p : Nat) (hp : p < t.length) :
    t[p]? = some (getE t p) := by
  rw [List.getElem?_eq_getElem hp, getE_eq_getElem t p hp]

theorem pairMap_append (l l' : List SymEntry) :
    pairMap (l ++ l') = pairMap l ++ pairMap l' := by
  simp [pairMap]

theorem pairMap_length (l : List SymEntry) : (pairMap l).length = l.length := by
  simp [pairMap]

theorem pairMap_ins (t : List SymEntry) (en : SymEntry) (p : Nat) (d : Bool) (c : Nat)
    (hp : p < t.length) :
    pairMap ((t ++ [en]).set p (setChild (getE t p) d c)) = pairMap (t ++ [en]) := by
  unfold pairMap
  rw [List.map_set]
  apply list_set_self
  have hp2 : p < (t ++ [en]).length := by simp; omega
  rw [List.getElem?_map, getElem?_eq_getE _ p hp2, getE_append_lt _ _ p hp]
  simp [setChild_hash, setChild_cstr]

/-- Invariant of the global symbol table in the BTREE build: tree pointers
are well formed, every entry's hash is the hash of its string (true because
`mrbc_str_to_symid` always passes `calc_hash(str)` to `add_index`), and the
tree search agrees with the linear scan on every hash-consistent query. -/
structure WF (t : SymTab) : Prop where
  child : childInv t.entries
  hashOk : ∀ i, i < t.entries.length → ∀ s, (getE t.entries i).cstr = some s →
    (getE t.entries i).hash = calc_hash s
  seq : ∀ q, search_index_btree t (calc_hash q) q = search_index_liner t (calc_hash q) q

theorem WF_empty : WF ⟨[]⟩ := by
  constructor
  · intro i hi
    simp at hi
  · intro i hi
    simp at hi
  · intro q
    simp [search_index_btree, search_index_liner, btSearchAux, linFind, getE,
      emptyEntry, childOf]

theorem add_btree_base (max : Nat) (s : BStr) (hmax : 0 < max) :
    add_index_btree max ⟨[]⟩ (calc_hash s) s = (⟨[newEntry (calc_hash s) s]⟩, 0) := by
  simp [add_index_btree, show ¬max ≤ 0 by omega, btInsAux, getE, newEntry]

theorem WF_singleton (s : BStr) : WF ⟨[newEntry (calc_hash s) s]⟩ := by
  constructor
  · intro i hi d hnz
    simp at hi
    subst hi
    exact absurd (childOf_new _ _ d) hnz
  · intro i hi s2 hcs
    simp at hi
    subst hi
    have : some s = some s2 := by simpa [getE, newEntry] using hcs
    simp [getE, newEntry, Option.some.inj this]
  · intro q
    by_cases hsq : s = q
    · subst hsq
      simp [search_index_btree, search_index_liner, btSearchAux, linFind, getE, newEntry]
    · simp [search_index_btree, search_index_liner, btSearchAux, linFind, getE,
        newEntry, hsq, childOf_new]

theorem add_btree_shape (max : Nat) (t : SymTab) (s : BStr)
    (hc : childInv t.entries) (hu : unstored t.entries s)
    (hlen : t.entries.length < max) (hN : 0 < t.entries.length) :
    ∃ p d, p < t.entries.length ∧ childOf (getE t.entries p) d = 0 ∧
      btWalk t.entries (calc_hash s) s (t.entries.length + 2) 0 = some (.miss p d) ∧
      add_index_btree max t (calc_hash s) s =
        (⟨(t.entries ++ [newEntry (calc_hash s) s]).set p
            (setChild (getE t.entries p) d t.entries.length)⟩,
         (t.entries.length : Int)) := by
  have hsome := btWalk_isSome t.entries (calc_hash s) s hc (t.entries.length + 2) 0
    (by omega) (by omega)
  obtain ⟨o, ho⟩ := Option.isSome_iff_exists.mp hsome
  cases o with
  | found k => exact absurd ho (btWalk_not_found t.entries (calc_hash s) s hu _ 0 k)
  | miss p d =>
    obtain ⟨hp, hz⟩ := btWalk_miss_props t.entries (calc_hash s) s hc _ 0 p d hN ho
    refine ⟨p, d, hp, hz, ho, ?_⟩
    have hfuel : (t.entries ++ [newEntry (calc_hash s) s]).length + 1
        = t.entries.length + 2 := by simp
    have hins := btInsAux_eq_walk t.entries (calc_hash s) s hc hu
      (t.entries.length + 2) 0 hN
    rw [ho] at hins
    simp only [add_index_btree, if_neg (by omega : ¬max ≤ t.entries.length)]
    rw [hfuel, hins]

theorem add_btree_WF (t : SymTab) (s : BStr) (hw : WF t) (hu : unstored t.entries s)
    (p : Nat) (d : Bool) (hp : p < t.entries.length)
    (hz : childOf (getE t.entries p) d = 0)
    (hwalk : btWalk t.entries (calc_hash s) s (t.entries.length + 2) 0 = some (.miss p d)) :
    WF ⟨(t.entries ++ [newEntry (calc_hash s) s]).set p
        (setChild (getE t.entries p) d t.entries.length)⟩ := by
  have hlen2 : ((t.entries ++ [newEntry (calc_hash s) s]).set p
      (setChild (getE t.entries p) d t.entries.length)).length
      = t.entries.length + 1 := by simp
  constructor
  · intro i hi d2 hnz
    rw [hlen2] at hi
    by_cases hiN : i = t.entries.length
    · subst hiN
      rw [getE_ins_last _ _ _ _ hp] at hnz
      exact absurd (childOf_new _ _ d2) hnz
    · have hiN2 : i < t.entries.length := by omega
      by_cases hip : i = p
      · subst hip
        rw [getE_ins_p _ _ _ _ hp] at hnz ⊢
        by_cases hd2 : d2 = d
        · subst hd2
          rw [childOf_setChild_same] at hnz ⊢
          rw [hlen2]
          omega
        · rw [childOf_setChild_other _ _ _ _ (fun he => hd2 he.symm)] at hnz ⊢
          have := hw.child i hiN2 d2 hnz
          rw [hlen2]
          omega
      · rw [getE_ins_ne _ _ _ _ i hiN2 hip] at hnz ⊢
        have := hw.child i hiN2 d2 hnz
        rw [hlen2]
        omega
  · intro i hi s2 hcs
    rw [hlen2] at hi
    by_cases hiN : i = t.entries.length
    · subst hiN
      rw [getE_ins_last _ _ _ _ hp] at hcs ⊢
      have : some s = some s2 := by simpa [newEntry] using hcs
      simp [newEntry, Option.some.inj this]
    · have hiN2 : i < t.entries.length := by omega
      by_cases hip : i = p
      · subst hip
        rw [getE_ins_p _ _ _ _ hp] at hcs ⊢
        rw [setChild_hash]
        rw [setChild_cstr] at hcs
        exact hw.hashOk i hiN2 s2 hcs
      · rw [getE_ins_ne _ _ _ _ i hiN2 hip] at hcs ⊢
        exact hw.hashOk i hiN2 s2 hcs
  · intro q
    have hN : 0 < t.entries.length := by omega
    obtain ⟨oq, hoq⟩ := Option.isSome_iff_exists.mp
      (btWalk_isSome t.entries (calc_hash q) q hw.child (t.entries.length + 1) 0
        (by omega) (by omega))
    have hnew := btWalk_after_ins t.entries (calc_hash s) s (calc_hash q) q hw.child
      p d hp hz (t.entries.length + 1) 0 oq hN hoq
    have hbt_new : search_index_btree
        ⟨(t.entries ++ [newEntry (calc_hash s) s]).set p
          (setChild (getE t.entries p) d t.entries.length)⟩ (calc_hash q) q
        = outId (some (extendOut p d t.entries.length (calc_hash s) s (calc_hash q) q oq)) := by
      rw [search_index_btree, btSearchAux_eq_walk]
      rw [show ((t.entries ++ [newEntry (calc_hash s) s]).set p
          (setChild (getE t.entries p) d t.entries.length)).length + 1
          = t.entries.length + 1 + 1 by simp]
      rw [hnew]
    have hbt_old : search_index_btree t (calc_hash q) q = outId (some oq) := by
      rw [search_index_btree, btSearchAux_eq_walk, hoq]
    have hlin_old := hw.seq q
    rw [hbt_old] at hlin_old
    have hlin_new : search_index_liner
        ⟨(t.entries ++ [newEntry (calc_hash s) s]).set p
          (setChild (getE t.entries p) d t.entries.length)⟩ (calc_hash q) q
        = (if linFind t.entries (calc_hash q) q 0 = -1 then
            (if (newEntry (calc_hash s) s).hash = calc_hash q ∧
                (newEntry (calc_hash s) s).cstr = some q then
              ((0 + t.entries.length : Nat) : Int) else -1)
           else linFind t.entries (calc_hash q) q 0) := by
      rw [search_index_liner]
      rw [linFind_congr (calc_hash q) q _ _ (pairMap_ins _ _ _ _ _ hp) 0]
      exact linFind_append_one (calc_hash q) q _ t.entries 0
    rw [hbt_new, hlin_new]
    cases oq with
    | found k =>
      have hlin_k : linFind t.entries (calc_hash q) q 0 = (k : Int) := hlin_old.symm
      rw [hlin_k, if_neg (by omega : ¬(k : Int) = -1)]
      rfl
    | miss pp dd =>
      have hlin_neg : linFind t.entries (calc_hash q) q 0 = -1 := by
        have h2 : outId (some (BtOut.miss pp dd)) = linFind t.entries (calc_hash q) q 0 :=
          hlin_old
        rw [← h2]
        rfl
      rw [hlin_neg, if_pos rfl]
      by_cases hppd : pp = p ∧ dd = d
      · obtain ⟨h1, h2⟩ := hppd
        subst h1; subst h2
        by_cases hqs : s = q
        · subst hqs
          rw [if_pos (by simp [newEntry])]
          simp [outId, extendOut]
        · rw [if_neg (by simp [newEntry]; intro _ he; exact hqs he)]
          simp [outId, extendOut, hqs]
      · have hnm : ¬((newEntry (calc_hash s) s).hash = calc_hash q ∧
            (newEntry (calc_hash s) s).cstr = some q) := by
          intro hmm
          have hqs : s = q := by simpa [newEntry] using hmm.2
          subst hqs
          have := btWalk_fuel_mono t.entries (calc_hash s) s _ _ 0 _
            (by omega : t.entries.length + 1 ≤ t.entries.length + 2) hoq
          rw [hwalk] at this
          cases this
          exact hppd ⟨rfl, rfl⟩
        rw [if_neg hnm]
        have hout : extendOut p d t.entries.length (calc_hash s) s (calc_hash q) q
            (BtOut.miss pp dd) = BtOut.miss pp dd := by
          simp [extendOut, hppd]
        rw [hout]
        rfl

theorem liner_neg_unstored (t : SymTab) (q : BStr) (hw : WF t)
    (hneg : search_index_liner t (calc_hash q) q = -1) : unstored t.entries q := by
  intro j hj hcs
  have hh := hw.hashOk j hj q hcs
  exact linFind_neg_no_match (calc_hash q) q t.entries 0 hneg j hj ⟨hh, hcs⟩

theorem symid_btree_eq (max : Nat) (t : SymTab) (s : BStr) :
    mrbc_str_to_symid_btree max t s =
      (if 0 ≤ search_index_btree t (calc_hash s) s
       then (t, search_index_btree t (calc_hash s) s)
       else add_index_btree max t (calc_hash s) s) := rfl

theorem symid_liner_eq (max : Nat) (t : SymTab) (s : BStr) :
    mrbc_str_to_symid_liner max t s =
      (if 0 ≤ search_index_liner t (calc_hash s) s
       then (t, search_index_liner t (calc_hash s) s)
       else add_index_liner max t (calc_hash s) s) := rfl

theorem search_neg_unstored (t : SymTab) (s : BStr) (hw : WF t)
    (hneg : ¬0 ≤ search_index_btree t (calc_hash s) s) :
    search_index_liner t (calc_hash s) s = -1 ∧ unstored t.entries s := by
  have hseq := hw.seq s
  rcases linFind_neg_or_nonneg (calc_hash s) s t.entries 0 with hcase | hcase
  · exact ⟨hcase, liner_neg_unstored t s hw hcase⟩
  · rw [hseq] at hneg
    exact absurd hcase hneg

theorem pairMap_newEntry (h : Nat) (s : BStr) :
    pairMap [newEntry h s] = [(h, some s)] := by
  simp [pairMap, newEntry]

/-- Full behavior of one `mrbc_str_to_symid` call (BTREE build) on a
well-formed table: the invariant is preserved, an unregistered string is
appended when there is room (its id is the old fill count), and the sentinel
-1 comes back when the table is full. -/
theorem symid_btree_spec (max : Nat) (t : SymTab) (s : BStr) (hw : WF t) :
    WF (mrbc_str_to_symid_btree max t s).1 ∧
    (unstored t.entries s → t.entries.length < max →
      (mrbc_str_to_symid_btree max t s).1.entries.length = t.entries.length + 1 ∧
      pairMap (mrbc_str_to_symid_btree max t s).1.entries
        = pairMap t.entries ++ [(calc_hash s, some s)] ∧
      (mrbc_str_to_symid_btree max t s).2 = (t.entries.length : Int)) ∧
    (unstored t.entries s → max ≤ t.entries.length →
      mrbc_str_to_symid_btree max t s = (t, -1)) := by
  rw [symid_btree_eq]
  by_cases hpos : 0 ≤ search_index_btree t (calc_hash s) s
  · rw [if_pos hpos]
    refine ⟨hw, fun hu _ => ?_, fun hu _ => ?_⟩
    · have := linFind_unstored (calc_hash s) s t.entries hu 0
      rw [hw.seq s] at hpos
      rw [search_index_liner] at hpos
      rw [this] at hpos
      omega
    · have := linFind_unstored (calc_hash s) s t.entries hu 0
      rw [hw.seq s] at hpos
      rw [search_index_liner] at hpos
      rw [this] at hpos
      omega
  · rw [if_neg hpos]
    obtain ⟨hlin, hu⟩ := search_neg_unstored t s hw hpos
    by_cases hmax : t.entries.length < max
    · by_cases hN : t.entries.length = 0
      · obtain ⟨te⟩ := t
        simp only at hN
        have hte : te = [] := List.length_eq_zero.mp hN
        subst hte
        rw [add_btree_base max s (by omega)]
        refine ⟨WF_singleton s, fun _ _ => ?_, fun _ hfull => ?_⟩
        · exact ⟨by simp, by simp [pairMap, newEntry], by simp⟩
        · simp at hfull
          omega
      · obtain ⟨p, d, hp, hz, hwalk, hadd⟩ :=
          add_btree_shape max t s hw.child hu hmax (by omega)
        rw [hadd]
        refine ⟨add_btree_WF t s hw hu p d hp hz hwalk, fun _ _ => ?_, fun _ hfull => ?_⟩
        · refine ⟨by simp, ?_, rfl⟩
          rw [show (⟨(t.entries ++ [newEntry (calc_hash s) s]).set p
              (setChild (getE t.entries p) d t.entries.length)⟩ : SymTab).entries
              = (t.entries ++ [newEntry (calc_hash s) s]).set p
                (setChild (getE t.entries p) d t.entries.length) from rfl]
          rw [pairMap_ins _ _ _ _ _ hp, pairMap_append, pairMap_newEntry]
        · omega
    · have hfull : max ≤ t.entries.length := by omega
      rw [add_index_btree, if_pos hfull]
      exact ⟨hw, fun _ hlt => absurd hlt hmax, fun _ _ => rfl⟩

theorem buildBtree_fold_WF (max : Nat) :
    ∀ (ss : List BStr) (t : SymTab), WF t →
      WF (ss.foldl (fun a s => (mrbc_str_to_symid_btree max a s).1) t) := by
  intro ss
  induction ss with
  | nil => intro t hw; exact hw
  | cons s rest ih =>
    intro t hw
    simp only [List.foldl_cons]
    exact ih _ (symid_btree_spec max t s hw).1

theorem buildBtree_WF (max : Nat) (ss : List BStr) : WF (buildBtree max ss) :=
  buildBtree_fold_WF max ss ⟨[]⟩ WF_empty

theorem unstored_nil (s : BStr) : unstored [] s := by
  intro i hi
  simp at hi

theorem buildBtree_fold_pairMap (max : Nat) :
    ∀ (ss : List BStr) (t : SymTab), WF t → ss.Nodup →
      (∀ s ∈ ss, unstored t.entries s) → t.entries.length + ss.length ≤ max →
      pairMap (ss.foldl (fun a s => (mrbc_str_to_symid_btree max a s).1) t).entries
        = pairMap t.entries ++ ss.map (fun s => (calc_hash s, some s)) := by
  intro ss
  induction ss with
  | nil => intro t _ _ _ _; simp
  | cons s rest ih =>
    intro t hw hnd hus hbound
    simp only [List.foldl_cons]
    have hu : unstored t.entries s := hus s (by simp)
    have hlt : t.entries.length < max := by
      simp only [List.length_cons] at hbound
      omega
    obtain ⟨hlen1, hpm1, _⟩ := (symid_btree_spec max t s hw).2.1 hu hlt
    have hrest : ∀ s2 ∈ rest, unstored (mrbc_str_to_symid_btree max t s).1.entries s2 := by
      intro s2 hs2
      have hne : s2 ≠ s := by
        rintro rfl
        exact (List.nodup_cons.mp hnd).1 hs2
      refine unstored_congr (t.entries ++ [newEntry (calc_hash s) s]) _ s2 ?_ ?_
      · rw [pairMap_append, pairMap_newEntry, hpm1]
      · refine unstored_append_one _ _ _ (hus s2 (by simp [hs2])) ?_
        simp [newEntry]
        intro he
        exact hne he.symm
    have hrec := ih (mrbc_str_to_symid_btree max t s).1
      (symid_btree_spec max t s hw).1 (List.nodup_cons.mp hnd).2 hrest
      (by
        rw [hlen1]
        simp only [List.length_cons] at hbound
        omega)
    rw [hrec, hpm1]
    simp

theorem buildLiner_fold_pairMap (max : Nat) :
    ∀ (ss : List BStr) (t : SymTab), ss.Nodup →
      (∀ s ∈ ss, unstored t.entries s) → t.entries.length + ss.length ≤ max →
      pairMap (ss.foldl (fun a s => (mrbc_str_to_symid_liner max a s).1) t).entries
        = pairMap t.entries ++ ss.map (fun s => (calc_hash s, some s)) := by
  intro ss
  induction ss with
  | nil => intro t _ _ _; simp
  | cons s rest ih =>
    intro t hnd hus hbound
    simp only [List.foldl_cons]
    have hu : unstored t.entries s := hus s (by simp)
    have hlt : t.entries.length < max := by
      simp only [List.length_cons] at hbound
      omega
    have hlin : search_index_liner t (calc_hash s) s = -1 :=
      linFind_unstored (calc_hash s) s t.entries hu 0
    have hstep : (mrbc_str_to_symid_liner max t s).1 = ⟨t.entries ++ [newEntry (calc_hash s) s]⟩ := by
      rw [symid_liner_eq, hlin]
      rw [if_neg (by omega : ¬(0 : Int) ≤ -1)]
      rw [add_index_liner, if_neg (by omega : ¬max ≤ t.entries.length)]
    rw [hstep]
    have hrest : ∀ s2 ∈ rest, unstored (t.entries ++ [newEntry (calc_hash s) s]) s2 := by
      intro s2 hs2
      have hne : s2 ≠ s := by
        rintro rfl
        exact (List.nodup_cons.mp hnd).1 hs2
      refine unstored_append_one _ _ _ (hus s2 (by simp [hs2])) ?_
      simp [newEntry]
      intro he
      exact hne he.symm
    have hrec := ih ⟨t.entries ++ [newEntry (calc_hash s) s]⟩ (List.nodup_cons.mp hnd).2 hrest
      (by
        simp only [List.length_cons] at hbound
        simp
        omega)
    rw [hrec]
    rw [show (⟨t.entries ++ [newEntry (calc_hash s) s]⟩ : SymTab).entries
        = t.entries ++ [newEntry (calc_hash s) s] from rfl]
    rw [pairMap_append, pairMap_newEntry]
    simp

/-- C1: for every sequence of distinct interned strings that does not exceed
the table capacity (MAX_SYMBOLS_COUNT, kept as the parameter `max`) and
every query string, `search_index` compiled with MRBC_SYMBOL_SEARCH_LINER
over the LINER-built table and `search_index` compiled with
MRBC_SYMBOL_SEARCH_BTREE over the BTREE-built table return the same symbol
id, namely the id under which an equal string was registered, or -1 if no
equal string was registered. -/
theorem C1_search_liner_btree_agree (max : Nat) (ss : List BStr) (q : BStr)
    (hnd : ss.Nodup) (hlen : ss.length ≤ max) :
    search_index_liner (buildLiner max ss) (calc_hash q) q
      = search_index_btree (buildBtree max ss) (calc_hash q) q ∧
    search_index_btree (buildBtree max ss) (calc_hash q) q = registeredId ss q := by
  have hB := buildBtree_fold_pairMap max ss ⟨[]⟩ WF_empty hnd
    (fun s _ => unstored_nil s) (by simp; omega)
  have hL := buildLiner_fold_pairMap max ss ⟨[]⟩ hnd
    (fun s _ => unstored_nil s) (by simp; omega)
  have hBpm : pairMap (buildBtree max ss).entries = ss.map (fun s => (calc_hash s, some s)) := by
    rw [buildBtree, hB]
    simp [pairMap]
  have hLpm : pairMap (buildLiner max ss).entries = ss.map (fun s => (calc_hash s, some s)) := by
    rw [buildLiner, hL]
    simp [pairMap]
  have h1 : search_index_btree (buildBtree max ss) (calc_hash q) q
      = search_index_liner (buildBtree max ss) (calc_hash q) q :=
    (buildBtree_WF max ss).seq q
  have h2 : search_index_liner (buildBtree max ss) (calc_hash q) q = registeredId ss q := by
    rw [search_index_liner, linFind_registered q ss _ 0 hBpm, registeredId]
  have h3 : search_index_liner (buildLiner max ss) (calc_hash q) q = registeredId ss q := by
    rw [search_index_liner, linFind_registered q ss _ 0 hLpm, registeredId]
  constructor
  · rw [h3, h1, h2]
  · rw [h1, h2]

theorem C1_search_liner_btree_agree_witness :
    ([[1], [2], [0, 1]] : List BStr).Nodup ∧ ([[1], [2], [0, 1]] : List BStr).length ≤ 5 ∧
    (search_index_liner (buildLiner 5 [[1], [2], [0, 1]]) (calc_hash [0, 1]) [0, 1]
        = search_index_btree (buildBtree 5 [[1], [2], [0, 1]]) (calc_hash [0, 1]) [0, 1] ∧
      search_index_btree (buildBtree 5 [[1], [2], [0, 1]]) (calc_hash [0, 1]) [0, 1]
        = registeredId [[1], [2], [0, 1]] [0, 1]) :=
  ⟨by decide, by decide,
    C1_search_liner_btree_agree 5 [[1], [2], [0, 1]] [0, 1] (by decide) (by decide)⟩

theorem symid_btree_second (max : Nat) (t : SymTab) (s : BStr) (hw : WF t)
    (hpos : 0 ≤ (mrbc_str_to_symid_btree max t s).2) :
    mrbc_str_to_symid_btree max (mrbc_str_to_symid_btree max t s).1 s
      = ((mrbc_str_to_symid_btree max t s).1, (mrbc_str_to_symid_btree max t s).2) := by
  by_cases hp0 : 0 ≤ search_index_btree t (calc_hash s) s
  · have hcall : mrbc_str_to_symid_btree max t s
        = (t, search_index_btree t (calc_hash s) s) := by
      rw [symid_btree_eq, if_pos hp0]
    rw [hcall]
    rw [symid_btree_eq, if_pos hp0]
  · have hcall : mrbc_str_to_symid_btree max t s = add_index_btree max t (calc_hash s) s := by
      rw [symid_btree_eq, if_neg hp0]
    obtain ⟨hlin, hu⟩ := search_neg_unstored t s hw hp0
    by_cases hmax : t.entries.length < max
    · by_cases hN : t.entries.length = 0
      · obtain ⟨te⟩ := t
        simp only at hN
        have hte : te = [] := List.length_eq_zero.mp hN
        subst hte
        rw [hcall, add_btree_base max s (by omega)]
        have hsearch : search_index_btree ⟨[newEntry (calc_hash s) s]⟩ (calc_hash s) s = 0 := by
          simp [search_index_btree, btSearchAux, getE, newEntry]
        rw [symid_btree_eq, hsearch]
        rfl
      · obtain ⟨p, d, hp, hz, hwalk, hadd⟩ :=
          add_btree_shape max t s hw.child hu hmax (by omega)
        rw [hcall, hadd]
        have hw1 := add_btree_WF t s hw hu p d hp hz hwalk
        have hlin1 : search_index_liner
            ⟨(t.entries ++ [newEntry (calc_hash s) s]).set p
              (setChild (getE t.entries p) d t.entries.length)⟩ (calc_hash s) s
            = (t.entries.length : Int) := by
          rw [search_index_liner]
          rw [linFind_congr (calc_hash s) s _ _ (pairMap_ins _ _ _ _ _ hp) 0]
          rw [linFind_append_one (calc_hash s) s _ t.entries 0]
          rw [show linFind t.entries (calc_hash s) s 0 = -1 from hlin]
          rw [if_pos rfl, if_pos (by simp [newEntry])]
          simp
        have hsearch : search_index_btree
            ⟨(t.entries ++ [newEntry (calc_hash s) s]).set p
              (setChild (getE t.entries p) d t.entries.length)⟩ (calc_hash s) s
            = (t.entries.length : Int) := by
          rw [hw1.seq s, hlin1]
        rw [symid_btree_eq, hsearch, if_pos (by omega)]
    · rw [hcall, add_index_btree, if_pos (by omega : max ≤ t.entries.length)] at hpos
      exact absurd hpos (by norm_num)

/-- C7: interning is idempotent.  On any reachable table: a first call of
`mrbc_str_to_symid` that returns an id ≥ 0 makes a second call with a string
of equal content return the same id without growing the table; a call with
an unregistered string appends a new entry and returns its id; and when the
table already holds `max` (MAX_SYMBOLS_COUNT) entries, a call with an
unregistered string returns the sentinel -1. -/
theorem C7_str_to_symid_idempotent (max : Nat) (t : SymTab) (s : BStr)
    (hreach : ∃ ss, t = buildBtree max ss) :
    (0 ≤ (mrbc_str_to_symid_btree max t s).2 →
      mrbc_str_to_symid_btree max (mrbc_str_to_symid_btree max t s).1 s
        = ((mrbc_str_to_symid_btree max t s).1, (mrbc_str_to_symid_btree max t s).2)) ∧
    (unstored t.entries s → t.entries.length < max →
      (mrbc_str_to_symid_btree max t s).2 = (t.entries.length : Int) ∧
      (mrbc_str_to_symid_btree max t s).1.entries.length = t.entries.length + 1) ∧
    (unstored t.entries s → t.entries.length = max →
      mrbc_str_to_symid_btree max t s = (t, -1)) := by
  obtain ⟨ss, hss⟩ := hreach
  have hw : WF t := hss ▸ buildBtree_WF max ss
  refine ⟨fun hpos => symid_btree_second max t s hw hpos, fun hu hlt => ?_, fun hu hfull => ?_⟩
  · obtain ⟨hlen, _, hsnd⟩ := (symid_btree_spec max t s hw).2.1 hu hlt
    exact ⟨hsnd, hlen⟩
  · exact (symid_btree_spec max t s hw).2.2 hu (by omega)

theorem C7_str_to_symid_idempotent_witness :
    mrbc_str_to_symid_btree 3 (mrbc_str_to_symid_btree 3 (buildBtree 3 [[1], [2]]) [5]).1 [5]
      = ((mrbc_str_to_symid_btree 3 (buildBtree 3 [[1], [2]]) [5]).1,
         (mrbc_str_to_symid_btree 3 (buildBtree 3 [[1], [2]]) [5]).2) :=
  (C7_str_to_symid_idempotent 3 (buildBtree 3 [[1], [2]]) [5] ⟨[[1], [2]], rfl⟩).1
    (by decide)

end Symt

namespace Load

/-- The raw bytecode input: a byte array.  Reads past the end of the list
return 0; a well-formed input is never read past its end. -/
abbrev Bin := List Nat

/-- Allocator and interner state threaded through the loader.  `mrbc_alloc`
serves from a finite pool: an allocation succeeds iff `budget` is positive
(the C allocator returns NULL when the pool is exhausted); each successful
allocation hands out a fresh block id recorded in `live` until it is freed.
The loader also consults the global symbol interner (symbol.c). -/
structure LState where
  budget : Nat
  nextId : Nat
  live : List Nat
  symMax : Nat
  symtab : Symt.SymTab
deriving Repr, DecidableEq

/-- Embedding of `mrbc_alloc`: NULL (`none`) on pool exhaustion, otherwise a
fresh block. -/
def mrbc_alloc (st : LState) : Option Nat × LState :=
  if st.budget = 0 then (none, st)
  else (some st.nextId,
    { st with budget := st.budget - 1, nextId := st.nextId + 1,
              live := st.live ++ [st.nextId] })

/-- Big-endian 16-bit read, `bin_to_uint16`. -/
def bin_to_uint16 (bin : Bin) (p : Nat) : Nat :=
  256 * bin.getD p 0 + bin.getD (p + 1) 0

/-- Big-endian 32-bit read, `bin_to_uint32`. -/
def bin_to_uint32 (bin : Bin) (p : Nat) : Nat :=
  16777216 * bin.getD p 0 + 65536 * bin.getD (p + 1) 0
    + 256 * bin.getD (p + 2) 0 + bin.getD (p + 3) 0

/-- IREP pool literal tags (enum irep_pool_type, load.c lines 34-40). -/
def IREP_TT_STR : Nat := 0

def IREP_TT_SSTR : Nat := 2

def IREP_TT_INT32 : Nat := 1

def IREP_TT_INT64 : Nat := 3

def IREP_TT_FLOAT : Nat := 5

/-- The pool-skipping loop of `load_irep_1` (load.c lines 243-254): advance
over `n` pool entries.  On an unknown tag the C code executes the dummy
`mrbc_raise` macro (a console_printf) and continues with `len` still 0, so
only the tag byte is skipped. -/
def skipPool (bin : Bin) : Nat → Nat → Nat
  | 0, p => p
  | n + 1, p =>
    let tag := bin.getD p 0
    let len :=
      if tag = IREP_TT_STR ∨ tag = IREP_TT_SSTR then bin_to_uint16 bin (p + 1) + 3
      else if tag = IREP_TT_INT32 then 4
      else if tag = IREP_TT_INT64 ∨ tag = IREP_TT_FLOAT then 8
      else 0
    skipPool bin n (p + 1 + len)

/-- Reading the NUL-terminated symbol string handed to `mrbc_str_to_symid`. -/
def readCStr (bin : Bin) (p : Nat) : List Nat :=
  (bin.drop p).takeWhile (fun b => b ≠ 0)

/-- The symbol-table loop of `load_irep_1` (load.c lines 271-276): read `n`
length-prefixed strings, intern each, collect the ids. -/
def readSyms (bin : Bin) : Nat → Nat → LState → List Int × Nat × LState
  | 0, p, st => ([], p, st)
  | n + 1, p, st =>
    let len := bin_to_uint16 bin p
    let str := readCStr bin (p + 2)
    let r := Symt.mrbc_str_to_symid_btree st.symMax st.symtab str
    let st2 := { st with symtab := r.1 }
    let rest := readSyms bin n (p + 2 + len + 1) st2
    (r.2 :: rest.1, rest.2.1, rest.2.2)

/-- The pool-offset loop of `load_irep_1` (load.c lines 279-292): record the
offset of each entry relative to `mrb_pool` and advance.  The second switch
has no default case, so on an unknown tag the C `len` is read uninitialized
(undefined behavior); it is modelled as 0 here, and no claim proved below
depends on this choice. -/
def poolOffsets (bin : Bin) (poolPos : Nat) : Nat → Nat → List Nat
  | 0, _ => []
  | n + 1, p =>
    let ofs := p - poolPos
    let tag := bin.getD p 0
    let len :=
      if tag = IREP_TT_STR ∨ tag = IREP_TT_SSTR then bin_to_uint16 bin (p + 1) + 3
      else if tag = IREP_TT_INT32 then 4
      else if tag = IREP_TT_INT64 ∨ tag = IREP_TT_FLOAT then 8
      else 0
    ofs :: poolOffsets bin poolPos n (p + 1 + len)

/-- The mrbc_irep record built by `load_irep_1`: the structural counters, the
positions of the instruction bytes and the raw pool inside the input, and
the two side tables materialized by the loader. -/
structure Irep where
  nlocals : Nat
  nregs : Nat
  rlen : Nat
  clen : Nat
  ilen : Nat
  plen : Nat
  slen : Nat
  codePos : Nat
  poolPos : Nat
  tbl_syms : List Int
  ofs_pools : List Nat
deriving Repr, DecidableEq

/-- Embedding of `load_irep_1` (load.c lines 218-297).  Reads the header
fields big-endian after the 4-byte record size, skips over the pool, reads
`slen`, allocates the irep node (NULL propagates on pool exhaustion; the C
leaves `*len` unassigned on that path and the caller never reads it, so the
model returns 0 there), interns the symbols and builds the pool offset
table.  The parsed length is the record size read at the start. -/
def load_irep_1 (bin : Bin) (pos : Nat) (st : LState) : Option Irep × LState × Nat :=
  let nlocals := bin_to_uint16 bin (pos + 4)
  let nregs := bin_to_uint16 bin (pos + 6)
  let rlen := bin_to_uint16 bin (pos + 8)
  let clen := bin_to_uint16 bin (pos + 10)
  let ilen := bin_to_uint16 bin (pos + 12)
  let codePos := pos + 14
  let poolPos := codePos + ilen + 13 * clen
  let plen := bin_to_uint16 bin poolPos
  let pSkip := skipPool bin plen (poolPos + 2)
  let slen := bin_to_uint16 bin pSkip
  let ra := mrbc_alloc st
  match ra.1 with
  | none => (none, ra.2, 0)
  | some _ =>
    let rs := readSyms bin slen (pSkip + 2) ra.2
    let offsets := poolOffsets bin poolPos plen (poolPos + 2)
    (some { nlocals := nlocals, nregs := nregs, rlen := rlen, clen := clen,
            ilen := ilen, plen := plen, slen := slen, codePos := codePos,
            poolPos := poolPos, tbl_syms := rs.1, ofs_pools := offsets },
     rs.2.2, bin_to_uint32 bin pos)

/-- A loaded IREP tree: the record plus the recursively loaded children. -/
inductive IrepTree where
  | node : Irep → List IrepTree → IrepTree

mutual

/-- Embedding of `load_irep` (load.c lines 308-325): load one record, then
recursively load `rlen` children laid out after it; a NULL child aborts the
whole load with NULL, without freeing anything.  The unbounded C recursion
is modelled with fuel (`none` on exhaustion, which corresponds to a C run
that never returns). -/
def load_irep : Nat → Bin → Nat → LState → Option IrepTree × LState × Nat
  | 0, _, _, st => (none, st, 0)
  | fuel + 1, bin, pos, st =>
    let r1 := load_irep_1 bin pos st
    match r1.1 with
    | none => (none, r1.2.1, 0)
    | some irep =>
      let rc := loadChildren fuel bin irep.rlen (pos + r1.2.2) r1.2.1
      match rc.1 with
      | none => (none, rc.2.1, 0)
      | some kids => (some (.node irep kids), rc.2.1, r1.2.2 + rc.2.2)

/-- The child loop of `load_irep`: total_len accumulates the record sizes. -/
def loadChildren : Nat → Bin → Nat → Nat → LState → Option (List IrepTree) × LState × Nat
  | 0, _, _, _, st => (none, st, 0)
  | _ + 1, _, 0, _, st => (some [], st, 0)
  | fuel + 1, bin, n + 1, pos, st =>
    let r1 := load_irep fuel bin pos st
    match r1.1 with
    | none => (none, r1.2.1, 0)
    | some kid =>
      let rc := loadChildren fuel bin n (pos + r1.2.2) r1.2.1
      match rc.1 with
      | none => (none, rc.2.1, 0)
      | some kids => (some (kid :: kids), rc.2.1, r1.2.2 + rc.2.2)

end

/-- Embedding of `load_header` (load.c lines 174-186): require the
"RITE02" identifier, ignore the rest of the 20-byte header. -/
def load_header (bin : Bin) : Int :=
  if bin.getD 0 0 = 82 ∧ bin.getD 1 0 = 73 ∧ bin.getD 2 0 = 84 ∧
     bin.getD 3 0 = 69 ∧ bin.getD 4 0 = 48 ∧ bin.getD 5 0 = 50 then 0 else -1

/-- The section loop of `mrbc_load_mrb` (load.c lines 348-360): an "IREP"
section is loaded (NULL makes the whole call return -1 with the partial
state), "END\0" stops with 0, anything else is skipped by its size.  The C
`while(1)` is modelled with fuel; `none` corresponds to a loop that never
reaches an END section. -/
def sectionsLoop : Nat → Bin → Nat → Option IrepTree → LState →
    Option Int × Option IrepTree × LState
  | 0, _, _, slot, st => (none, slot, st)
  | fuel + 1, bin, pos, slot, st =>
    let section_size := bin_to_uint32 bin (pos + 4)
    if bin.getD pos 0 = 73 ∧ bin.getD (pos + 1) 0 = 82 ∧
       bin.getD (pos + 2) 0 = 69 ∧ bin.getD (pos + 3) 0 = 80 then
      let r := load_irep fuel bin (pos + 12) st
      match r.1 with
      | none => (some (-1), none, r.2.1)
      | some tree => sectionsLoop fuel bin (pos + section_size) (some tree) r.2.1
    else if bin.getD pos 0 = 69 ∧ bin.getD (pos + 1) 0 = 78 ∧
        bin.getD (pos + 2) 0 = 68 ∧ bin.getD (pos + 3) 0 = 0 then
      (some 0, slot, st)
    else sectionsLoop fuel bin (pos + section_size) slot st

/-- Embedding of `mrbc_load_mrb` (load.c lines 337-363).  Returns the C
return value (0 or -1; `none` for a diverging section loop), the final
`vm->irep` slot, and the allocator state. -/
def mrbc_load_mrb (fuel : Nat) (bin : Bin) (st : LState) :
    Option Int × Option IrepTree × LState :=
  if load_header bin = 0 then sectionsLoop fuel bin 20 none st
  else (some (-1), none, st)

/-! Claims about the loader. -/

theorem mrbc_alloc_live_mono (st : LState) (a : Nat) (ha : a ∈ st.live) :
    a ∈ (mrbc_alloc st).2.live := by
  rw [mrbc_alloc]
  by_cases hb : st.budget = 0
  · rw [if_pos hb]
    exact ha
  · rw [if_neg hb]
    exact List.mem_append_left _ ha

theorem readSyms_live (bin : Bin) :
    ∀ n p st, (readSyms bin n p st).2.2.live = st.live := by
  intro n
  induction n with
  | zero => intro p st; rfl
  | succ m ih =>
    intro p st
    rw [readSyms]
    exact ih _ _

theorem load_irep_1_live (bin : Bin) (pos : Nat) (st : LState) (a : Nat)
    (ha : a ∈ st.live) : a ∈ (load_irep_1 bin pos st).2.1.live := by
  rw [load_irep_1]
  rcases hb : (mrbc_alloc st).1 with _ | blk
  · simp only [hb]
    exact mrbc_alloc_live_mono st a ha
  · simp only [hb]
    rw [readSyms_live]
    exact mrbc_alloc_live_mono st a ha

theorem load_live_mono : ∀ fuel : Nat,
    (∀ (bin : Bin) (pos : Nat) (st : LState) (a : Nat), a ∈ st.live →
      a ∈ (load_irep fuel bin pos st).2.1.live) ∧
    (∀ (bin : Bin) (n pos : Nat) (st : LState) (a : Nat), a ∈ st.live →
      a ∈ (loadChildren fuel bin n pos st).2.1.live) := by
  intro fuel
  induction fuel with
  | zero => exact ⟨fun _ _ _ _ h => h, fun _ _ _ _ _ h => h⟩
  | succ f ih =>
    constructor
    · intro bin pos st a ha
      rw [load_irep]
      have h1 := load_irep_1_live bin pos st a ha
      rcases hr : (load_irep_1 bin pos st).1 with _ | irep
      · simpa [hr] using h1
      · simp only [hr]
        have h2 := ih.2 bin irep.rlen (pos + (load_irep_1 bin pos st).2.2)
          (load_irep_1 bin pos st).2.1 a h1
        rcases hc : (loadChildren f bin irep.rlen (pos + (load_irep_1 bin pos st).2.2)
            (load_irep_1 bin pos st).2.1).1 with _ | kids
        · simpa [hc] using h2
        · simpa [hc] using h2
    · intro bin n pos st a ha
      match n with
      | 0 => exact ha
      | m + 1 =>
        rw [loadChildren]
        have h1 := ih.1 bin pos st a ha
        rcases hr : (load_irep f bin pos st).1 with _ | kid
        · simpa [hr] using h1
        · simp only [hr]
          have h2 := ih.2 bin m (pos + (load_irep f bin pos st).2.2)
            (load_irep f bin pos st).2.1 a h1
          rcases hc : (loadChildren f bin m (pos + (load_irep f bin pos st).2.2)
              (load_irep f bin pos st).2.1).1 with _ | kids
          · simpa [hc] using h2
          · simpa [hc] using h2

theorem sectionsLoop_spec : ∀ (fuel : Nat) (bin : Bin) (pos : Nat)
    (slot : Option IrepTree) (st : LState),
    ((sectionsLoop fuel bin pos slot st).1 = some 0 ∨
     (sectionsLoop fuel bin pos slot st).1 = some (-1) ∨
     (sectionsLoop fuel bin pos slot st).1 = none) ∧
    ∀ a, a ∈ st.live → a ∈ (sectionsLoop fuel bin pos slot st).2.2.live := by
  intro fuel
  induction fuel with
  | zero => exact fun _ _ _ _ => ⟨Or.inr (Or.inr rfl), fun _ h => h⟩
  | succ f ih =>
    intro bin pos slot st
    rw [sectionsLoop]
    by_cases hirep : bin.getD pos 0 = 73 ∧ bin.getD (pos + 1) 0 = 82 ∧
        bin.getD (pos + 2) 0 = 69 ∧ bin.getD (pos + 3) 0 = 80
    · rw [if_pos hirep]
      rcases hr : (load_irep f bin (pos + 12) st).1 with _ | tree
      · simp only [hr]
        exact ⟨Or.inr (Or.inl (by trivial)),
          fun a ha => (load_live_mono f).1 bin (pos + 12) st a ha⟩
      · simp only [hr]
        refine ⟨(ih bin (pos + bin_to_uint32 bin (pos + 4)) (some tree)
          (load_irep f bin (pos + 12) st).2.1).1, fun a ha => ?_⟩
        exact (ih bin (pos + bin_to_uint32 bin (pos + 4)) (some tree)
          (load_irep f bin (pos + 12) st).2.1).2 a
          ((load_live_mono f).1 bin (pos + 12) st a ha)
    · rw [if_neg hirep]
      by_cases hend : bin.getD pos 0 = 69 ∧ bin.getD (pos + 1) 0 = 78 ∧
          bin.getD (pos + 2) 0 = 68 ∧ bin.getD (pos + 3) 0 = 0
      · rw [if_pos hend]
        exact ⟨Or.inl rfl, fun _ h => h⟩
      · rw [if_neg hend]
        exact ih bin (pos + bin_to_uint32 bin (pos + 4)) slot st

/-- C2 (amended): `mrbc_load_mrb` returns 0 or -1 (or, with the fuel model,
diverges), and it never frees anything: every block live before the call is
still live after it, whether the load fails or not — a failed load leaks the
partially built IREP tree instead of freeing it. -/
theorem C2_load_mrb_no_free (fuel : Nat) (bin : Bin) (st : LState) :
    ((mrbc_load_mrb fuel bin st).1 = some 0 ∨
     (mrbc_load_mrb fuel bin st).1 = some (-1) ∨
     (mrbc_load_mrb fuel bin st).1 = none) ∧
    ∀ a, a ∈ st.live → a ∈ (mrbc_load_mrb fuel bin st).2.2.live := by
  rw [mrbc_load_mrb]
  by_cases hh : load_header bin = 0
  · rw [if_pos hh]
    exact sectionsLoop_spec fuel bin 20 none st
  · rw [if_neg hh]
    exact ⟨Or.inr (Or.inl rfl), fun _ h => h⟩

theorem C2_load_mrb_no_free_witness :
    7 ∈ (mrbc_load_mrb 1 [] ⟨0, 0, [7], 10, ⟨[]⟩⟩).2.2.live :=
  (C2_load_mrb_no_free 1 [] ⟨0, 0, [7], 10, ⟨[]⟩⟩).2 7 (by decide)

/-- A concrete bytecode file whose loading fails: a valid RITE02 header, an
IREP section whose root record announces one child (`rlen = 1`), and an
allocator with room for exactly one block, so the child's allocation fails
after the root node was allocated. -/
def c2bin : Bin :=
  [82, 73, 84, 69, 48, 50] ++ [0, 0, 0, 0, 0, 0, 0, 0, 0, 0, 0, 0, 0, 0] ++
  [73, 82, 69, 80] ++ [0, 0, 0, 0] ++ [0, 0, 0, 0] ++
  [0, 0, 0, 18, 0, 0, 0, 0, 0, 1, 0, 0, 0, 0, 0, 0, 0, 0]

/-- The allocator state for the C2 counterexample: empty, one block of room. -/
def c2state : LState := ⟨1, 0, [], 10, ⟨[]⟩⟩

/-- C2 counterexample: on this failing input `mrbc_load_mrb` does return -1,
but the IREP node allocated for the root record is still allocated
afterwards (block 0 is live and `vm->irep` was overwritten with NULL, so the
node is unreachable and unfreed), contradicting the claim that on failure
every partially built IREP node has been freed. -/
theorem C2_load_failure_leak_counterexample :
    (mrbc_load_mrb 5 c2bin c2state).1 = some (-1) ∧
    (mrbc_load_mrb 5 c2bin c2state).2.1.isSome = false ∧
    (mrbc_load_mrb 5 c2bin c2state).2.2.live = [0] ∧
    c2state.live = [] := by
  refine ⟨?_, ?_, ?_, rfl⟩
  · decide
  · decide
  · decide

/-- A single IREP payload whose pool holds one literal with the unknown type
tag 4 (the defined tags are 0, 2, 1, 3, 5). -/
def c3bin : Bin := [0, 0, 0, 19, 0, 0, 0, 0, 0, 0, 0, 0, 0, 0, 0, 1, 4, 0, 0]

/-- C3: the loader does NOT reject an IREP whose pool holds a literal with
an unknown type tag.  `load_irep_1` executes the dummy `mrbc_raise` macro (a
console_printf), keeps parsing with `len = 0`, and returns the IREP as a
successfully parsed node (`plen = 1` recorded); a whole file built around
this payload loads with return value 0 and a stored `vm->irep`. -/
theorem C3_unknown_tag_accepted :
    (load_irep_1 c3bin 0 ⟨1, 0, [], 10, ⟨[]⟩⟩).1.isSome = true ∧
    (load_irep_1 c3bin 0 ⟨1, 0, [], 10, ⟨[]⟩⟩).1.map Irep.plen = some 1 ∧
    (mrbc_load_mrb 5 ([82, 73, 84, 69, 48, 50] ++
        [0, 0, 0, 0, 0, 0, 0, 0, 0, 0, 0, 0, 0, 0] ++
        [73, 82, 69, 80] ++ [0, 0, 0, 31] ++ [0, 0, 0, 0] ++ c3bin ++
        [69, 78, 68, 0] ++ [0, 0, 0, 8]) ⟨4, 0, [], 10, ⟨[]⟩⟩).1 = some 0 ∧
    (mrbc_load_mrb 5 ([82, 73, 84, 69, 48, 50] ++
        [0, 0, 0, 0, 0, 0, 0, 0, 0, 0, 0, 0, 0, 0] ++
        [73, 82, 69, 80] ++ [0, 0, 0, 31] ++ [0, 0, 0, 0] ++ c3bin ++
        [69, 78, 68, 0] ++ [0, 0, 0, 8]) ⟨4, 0, [], 10, ⟨[]⟩⟩).2.1.isSome = true := by
  refine ⟨?_, ?_, ?_, ?_⟩ <;> decide

/-! Claim C4: round trip of the structural counters through the serialized
IREP payload format of section 4.E of the specification. -/

/-- One literal of the producer-side pool.  STR/SSTR carry the string bytes;
the numeric kinds carry their raw encoded bytes (4 or 8 of them): the loader
skips over them without decoding. -/
inductive PoolLit where
  | str : List Nat → PoolLit
  | sstr : List Nat → PoolLit
  | int32 : List Nat → PoolLit
  | int64 : List Nat → PoolLit
  | float : List Nat → PoolLit
deriving Repr, DecidableEq

/-- Well-formed literal: string length fits the 16-bit length field, numeric
bodies have their exact size. -/
def litWf : PoolLit → Prop
  | .str s => s.length < 65536
  | .sstr s => s.length < 65536
  | .int32 b => b.length = 4
  | .int64 b => b.length = 8
  | .float b => b.length = 8

/-- Big-endian 16-bit serialization. -/
def be16 (n : Nat) : List Nat := [n / 256 % 256, n % 256]

/-- Big-endian 32-bit serialization. -/
def be32 (n : Nat) : List Nat :=
  [n / 16777216 % 256, n / 65536 % 256, n / 256 % 256, n % 256]

/-- Producer-side serialization of one pool literal, per the layout the
loader expects: type byte, then u16 length + bytes + NUL for strings, raw
bytes for the numeric kinds. -/
def serializeLit : PoolLit → List Nat
  | .str s => IREP_TT_STR :: (be16 s.length ++ (s ++ [0]))
  | .sstr s => IREP_TT_SSTR :: (be16 s.length ++ (s ++ [0]))
  | .int32 b => IREP_TT_INT32 :: b
  | .int64 b => IREP_TT_INT64 :: b
  | .float b => IREP_TT_FLOAT :: b

/-- Producer-side serialization of one symbol record: u16 length + bytes +
NUL. -/
def serializeSym (s : List Nat) : List Nat := be16 s.length ++ (s ++ [0])

/-- Producer-side view of one IREP record (children not included: the loader
of a single record does not touch them). -/
structure IrepSrc where
  record_size : Nat
  nlocals : Nat
  nregs : Nat
  rlen : Nat
  clen : Nat
  code : List Nat
  catches : List Nat
  pool : List PoolLit
  syms : List (List Nat)
deriving Repr, DecidableEq

/-- The producer-side record is valid when every 16-bit field fits, the
catch-handler block has its fixed 13 bytes per handler, and the pool and
symbol tables are well formed. -/
def IrepSrc.wf (r : IrepSrc) : Prop :=
  r.record_size < 4294967296 ∧
  r.nlocals < 65536 ∧ r.nregs < 65536 ∧ r.rlen < 65536 ∧ r.clen < 65536 ∧
  r.code.length < 65536 ∧ r.catches.length = 13 * r.clen ∧
  r.pool.length < 65536 ∧ r.syms.length < 65536 ∧
  (∀ l ∈ r.pool, litWf l) ∧ (∀ s ∈ r.syms, s.length < 65536)

/-- Serialization of one IREP record payload exactly as specified in section
4.E: record size, the five 16-bit counters, instructions, catch handlers,
pool count and literals, symbol count and symbol records. -/
def serializeIrep1 (r : IrepSrc) : List Nat :=
  be32 r.record_size ++ (be16 r.nlocals ++ (be16 r.nregs ++ (be16 r.rlen ++
    (be16 r.clen ++ (be16 r.code.length ++ (r.code ++ (r.catches ++
      (be16 r.pool.length ++ ((r.pool.map serializeLit).flatten ++
        (be16 r.syms.length ++ (r.syms.map serializeSym).flatten))))))))))

theorem getD_of_drop (bin : Bin) (p k : Nat) :
    bin.getD (p + k) 0 = (bin.drop p).getD k 0 := by
  simp [List.getD_eq_getElem?_getD, List.getElem?_drop]

theorem getD_head (bin : Bin) (p b : Nat) (tail : List Nat)
    (h : bin.drop p = b :: tail) : bin.getD p 0 = b := by
  have := getD_of_drop bin p 0
  rw [h] at this
  simpa using this

theorem drop_succ_of_drop (bin : Bin) (p b : Nat) (tail : List Nat)
    (h : bin.drop p = b :: tail) : bin.drop (p + 1) = tail := by
  have : bin.drop (p + 1) = (bin.drop p).drop 1 := by
    rw [List.drop_drop]
  rw [this, h]
  rfl

theorem read16_of_drop (bin : Bin) (p n : Nat) (tail : List Nat)
    (h : bin.drop p = be16 n ++ tail) (hn : n < 65536) :
    bin_to_uint16 bin p = n := by
  rw [bin_to_uint16]
  have h0 : bin.getD p 0 = n / 256 % 256 := getD_head bin p _ _ (by simpa [be16] using h)
  have h1 : bin.getD (p + 1) 0 = n % 256 := by
    have hd := drop_succ_of_drop bin p _ _ (by simpa [be16] using h)
    exact getD_head bin (p + 1) _ _ (by simpa using hd)
  rw [h0, h1]
  omega

theorem drop_add_of_drop (bin : Bin) (p k : Nat) (l tail : List Nat)
    (h : bin.drop p = l ++ tail) (hk : k = l.length) :
    bin.drop (p + k) = tail := by
  subst hk
  have : bin.drop (p + l.length) = (bin.drop p).drop l.length := by
    rw [List.drop_drop, Nat.add_comm]
  rw [this, h, List.drop_left]

theorem serializeLit_length_str (s : List Nat) :
    (serializeLit (PoolLit.str s)).length = s.length + 4 := by
  simp [serializeLit, be16]

theorem serializeLit_length_sstr (s : List Nat) :
    (serializeLit (PoolLit.sstr s)).length = s.length + 4 := by
  simp [serializeLit, be16]

theorem serializeLit_length_int32 (b : List Nat) (hb : b.length = 4) :
    (serializeLit (PoolLit.int32 b)).length = 5 := by
  simp [serializeLit, hb]

theorem serializeLit_length_int64 (b : List Nat) (hb : b.length = 8) :
    (serializeLit (PoolLit.int64 b)).length = 9 := by
  simp [serializeLit, hb]

theorem serializeLit_length_float (b : List Nat) (hb : b.length = 8) :
    (serializeLit (PoolLit.float b)).length = 9 := by
  simp [serializeLit, hb]

/-- Skipping the serialized pool lands exactly at its end. -/
theorem skipPool_serialized :
    ∀ (lits : List PoolLit) (bin : Bin) (p : Nat) (tail : List Nat),
      (∀ l ∈ lits, litWf l) →
      bin.drop p = (lits.map serializeLit).flatten ++ tail →
      skipPool bin lits.length p = p + ((lits.map serializeLit).flatten).length := by
  intro lits
  induction lits with
  | nil =>
    intro bin p tail _ _
    simp [skipPool]
  | cons l ls ih =>
    intro bin p tail hwf hdrop
    have hldrop : bin.drop p = serializeLit l ++ ((ls.map serializeLit).flatten ++ tail) := by
      simpa [List.flatten_cons, List.append_assoc] using hdrop
    have hlwf : litWf l := hwf l (by simp)
    have hLflat : ((List.map serializeLit (l :: ls)).flatten).length
        = (serializeLit l).length + ((List.map serializeLit ls).flatten).length := by
      simp
    rw [show (l :: ls).length = ls.length + 1 from rfl, skipPool, hLflat]
    have hdtail : bin.drop (p + (serializeLit l).length)
        = (ls.map serializeLit).flatten ++ tail :=
      drop_add_of_drop bin p _ _ _ hldrop rfl
    have hrec := ih bin (p + (serializeLit l).length) tail
      (fun l2 hl2 => hwf l2 (by simp [hl2])) hdtail
    rcases l with s | s | b | b | b
    · have htag : bin.getD p 0 = IREP_TT_STR :=
        getD_head bin p _ _ (by simpa [serializeLit] using hldrop)
      have hd1 : bin.drop (p + 1) =
          be16 s.length ++ ((s ++ [0]) ++ ((ls.map serializeLit).flatten ++ tail)) := by
        have h2 := drop_succ_of_drop bin p _ _ (by simpa [serializeLit] using hldrop)
        rw [h2]
        simp [List.append_assoc]
      have hlen : bin_to_uint16 bin (p + 1) = s.length :=
        read16_of_drop bin (p + 1) s.length _ hd1 hlwf
      rw [htag, hlen, if_pos (Or.inl rfl)]
      have hpe : p + 1 + (s.length + 3) = p + (serializeLit (PoolLit.str s)).length := by
        rw [serializeLit_length_str]
        omega
      rw [hpe, hrec, serializeLit_length_str]
      omega
    · have htag : bin.getD p 0 = IREP_TT_SSTR :=
        getD_head bin p _ _ (by simpa [serializeLit] using hldrop)
      have hd1 : bin.drop (p + 1) =
          be16 s.length ++ ((s ++ [0]) ++ ((ls.map serializeLit).flatten ++ tail)) := by
        have h2 := drop_succ_of_drop bin p _ _ (by simpa [serializeLit] using hldrop)
        rw [h2]
        simp [List.append_assoc]
      have hlen : bin_to_uint16 bin (p + 1) = s.length :=
        read16_of_drop bin (p + 1) s.length _ hd1 hlwf
      rw [htag, hlen, if_pos (Or.inr rfl)]
      have hpe : p + 1 + (s.length + 3) = p + (serializeLit (PoolLit.sstr s)).length := by
        rw [serializeLit_length_sstr]
        omega
      rw [hpe, hrec, serializeLit_length_sstr]
      omega
    · have htag : bin.getD p 0 = IREP_TT_INT32 :=
        getD_head bin p _ _ (by simpa [serializeLit] using hldrop)
      rw [htag, if_neg (by decide), if_pos rfl]
      have hpe : p + 1 + 4 = p + (serializeLit (PoolLit.int32 b)).length := by
        rw [serializeLit_length_int32 b hlwf]
      rw [hpe, hrec, serializeLit_length_int32 b hlwf]
      omega
    · have htag : bin.getD p 0 = IREP_TT_INT64 :=
        getD_head bin p _ _ (by simpa [serializeLit] using hldrop)
      rw [htag, if_neg (by decide), if_neg (by decide), if_pos (Or.inl rfl)]
      have hpe : p + 1 + 8 = p + (serializeLit (PoolLit.int64 b)).length := by
        rw [serializeLit_length_int64 b hlwf]
      rw [hpe, hrec, serializeLit_length_int64 b hlwf]
      omega
    · have htag : bin.getD p 0 = IREP_TT_FLOAT :=
        getD_head bin p _ _ (by simpa [serializeLit] using hldrop)
      rw [htag, if_neg (by decide), if_neg (by decide), if_pos (Or.inr rfl)]
      have hpe : p + 1 + 8 = p + (serializeLit (PoolLit.float b)).length := by
        rw [serializeLit_length_float b hlwf]
      rw [hpe, hrec, serializeLit_length_float b hlwf]
      omega

theorem read32_of_drop (bin : Bin) (p n : Nat) (tail : List Nat)
    (h : bin.drop p = be32 n ++ tail) (hn : n < 4294967296) :
    bin_to_uint32 bin p = n := by
  rw [bin_to_uint32]
  have h0 : bin.getD p 0 = n / 16777216 % 256 :=
    getD_head bin p _ _ (by simpa [be32] using h)
  have hd1 := drop_succ_of_drop bin p _ _ (by simpa [be32] using h)
  have h1 : bin.getD (p + 1) 0 = n / 65536 % 256 := getD_head bin (p + 1) _ _ hd1
  have hd2 := drop_succ_of_drop bin (p + 1) _ _ hd1
  have h2 : bin.getD (p + 1 + 1) 0 = n / 256 % 256 := getD_head bin (p + 1 + 1) _ _ hd2
  have hd3 := drop_succ_of_drop bin (p + 1 + 1) _ _ hd2
  have h3 : bin.getD (p + 1 + 1 + 1) 0 = n % 256 := getD_head bin (p + 1 + 1 + 1) _ _ hd3
  rw [show p + 2 = p + 1 + 1 by omega, show p + 3 = p + 1 + 1 + 1 by omega]
  rw [h0, h1, h2, h3]
  omega

/-- C4: for every valid IREP payload, `load_irep_1` recovers the structural
counters exactly as the producer wrote them: nlocals, nregs, rlen, clen,
ilen as big-endian 16-bit fields after the 4-byte record size, plen as the
16-bit count after the instruction bytes and `clen * 13` catch-handler
bytes, slen as the 16-bit count after the skipped pool entries; each stored
field of the returned IREP equals the producer's field, and the parsed
length is the 32-bit record size. -/
theorem C4_loader_round_trip (r : IrepSrc) (rest : List Nat) (st : LState)
    (hwf : r.wf) (hb : 0 < st.budget) :
    (load_irep_1 (serializeIrep1 r ++ rest) 0 st).1.map
        (fun irep => (irep.nlocals, irep.nregs, irep.rlen, irep.clen,
                      irep.ilen, irep.plen, irep.slen))
      = some (r.nlocals, r.nregs, r.rlen, r.clen, r.code.length,
              r.pool.length, r.syms.length) ∧
    (load_irep_1 (serializeIrep1 r ++ rest) 0 st).2.2 = r.record_size := by
  obtain ⟨hrs, hnl, hnr, hrl, hcl, hcode, hcat, hpool, hsyms, hlits, _⟩ := hwf
  have hD0 : (serializeIrep1 r ++ rest).drop 0 =
      be32 r.record_size ++ (be16 r.nlocals ++ (be16 r.nregs ++ (be16 r.rlen ++
        (be16 r.clen ++ (be16 r.code.length ++ (r.code ++ (r.catches ++
          (be16 r.pool.length ++ ((r.pool.map serializeLit).flatten ++
            (be16 r.syms.length ++
              ((r.syms.map serializeSym).flatten ++ rest))))))))))) := by
    rw [List.drop_zero, serializeIrep1]
    simp [List.append_assoc]
  have h32 : bin_to_uint32 (serializeIrep1 r ++ rest) 0 = r.record_size :=
    read32_of_drop _ 0 _ _ hD0 hrs
  have hD4 : (serializeIrep1 r ++ rest).drop 4 =
      be16 r.nlocals ++ (be16 r.nregs ++ (be16 r.rlen ++
        (be16 r.clen ++ (be16 r.code.length ++ (r.code ++ (r.catches ++
          (be16 r.pool.length ++ ((r.pool.map serializeLit).flatten ++
            (be16 r.syms.length ++
              ((r.syms.map serializeSym).flatten ++ rest)))))))))) := by
    have := drop_add_of_drop _ 0 4 _ _ hD0 (by simp [be32])
    simpa using this
  have h16_4 : bin_to_uint16 (serializeIrep1 r ++ rest) 4 = r.nlocals :=
    read16_of_drop _ 4 _ _ hD4 hnl
  have hD6 : (serializeIrep1 r ++ rest).drop 6 =
      be16 r.nregs ++ (be16 r.rlen ++
        (be16 r.clen ++ (be16 r.code.length ++ (r.code ++ (r.catches ++
          (be16 r.pool.length ++ ((r.pool.map serializeLit).flatten ++
            (be16 r.syms.length ++
              ((r.syms.map serializeSym).flatten ++ rest))))))))) := by
    have := drop_add_of_drop _ 4 2 _ _ hD4 (by simp [be16])
    simpa using this
  have h16_6 : bin_to_uint16 (serializeIrep1 r ++ rest) 6 = r.nregs :=
    read16_of_drop _ 6 _ _ hD6 hnr
  have hD8 : (serializeIrep1 r ++ rest).drop 8 =
      be16 r.rlen ++ (be16 r.clen ++ (be16 r.code.length ++ (r.code ++ (r.catches ++
        (be16 r.pool.length ++ ((r.pool.map serializeLit).flatten ++
          (be16 r.syms.length ++
            ((r.syms.map serializeSym).flatten ++ rest)))))))) := by
    have := drop_add_of_drop _ 6 2 _ _ hD6 (by simp [be16])
    simpa using this
  have h16_8 : bin_to_uint16 (serializeIrep1 r ++ rest) 8 = r.rlen :=
    read16_of_drop _ 8 _ _ hD8 hrl
  have hD10 : (serializeIrep1 r ++ rest).drop 10 =
      be16 r.clen ++ (be16 r.code.length ++ (r.code ++ (r.catches ++
        (be16 r.pool.length ++ ((r.pool.map serializeLit).flatten ++
          (be16 r.syms.length ++
            ((r.syms.map serializeSym).flatten ++ rest))))))) := by
    have := drop_add_of_drop _ 8 2 _ _ hD8 (by simp [be16])
    simpa using this
  have h16_10 : bin_to_uint16 (serializeIrep1 r ++ rest) 10 = r.clen :=
    read16_of_drop _ 10 _ _ hD10 hcl
  have hD12 : (serializeIrep1 r ++ rest).drop 12 =
      be16 r.code.length ++ (r.code ++ (r.catches ++
        (be16 r.pool.length ++ ((r.pool.map serializeLit).flatten ++
          (be16 r.syms.length ++
            ((r.syms.map serializeSym).flatten ++ rest)))))) := by
    have := drop_add_of_drop _ 10 2 _ _ hD10 (by simp [be16])
    simpa using this
  have h16_12 : bin_to_uint16 (serializeIrep1 r ++ rest) 12 = r.code.length :=
    read16_of_drop _ 12 _ _ hD12 hcode
  have hD14 : (serializeIrep1 r ++ rest).drop 14 =
      r.code ++ (r.catches ++
        (be16 r.pool.length ++ ((r.pool.map serializeLit).flatten ++
          (be16 r.syms.length ++
            ((r.syms.map serializeSym).flatten ++ rest))))) := by
    have := drop_add_of_drop _ 12 2 _ _ hD12 (by simp [be16])
    simpa using this
  have hDcode : (serializeIrep1 r ++ rest).drop (14 + r.code.length) =
      r.catches ++
        (be16 r.pool.length ++ ((r.pool.map serializeLit).flatten ++
          (be16 r.syms.length ++
            ((r.syms.map serializeSym).flatten ++ rest)))) := by
    have := drop_add_of_drop _ 14 r.code.length _ _ hD14 rfl
    simpa [Nat.add_comm] using this
  have hDpool : (serializeIrep1 r ++ rest).drop (14 + r.code.length + 13 * r.clen) =
      be16 r.pool.length ++ ((r.pool.map serializeLit).flatten ++
        (be16 r.syms.length ++ ((r.syms.map serializeSym).flatten ++ rest))) := by
    have := drop_add_of_drop _ (14 + r.code.length) r.catches.length _ _ hDcode rfl
    rw [hcat] at this
    exact this
  have hplen : bin_to_uint16 (serializeIrep1 r ++ rest)
      (14 + r.code.length + 13 * r.clen) = r.pool.length :=
    read16_of_drop _ _ _ _ hDpool hpool
  have hDpool2 : (serializeIrep1 r ++ rest).drop (14 + r.code.length + 13 * r.clen + 2) =
      (r.pool.map serializeLit).flatten ++
        (be16 r.syms.length ++ ((r.syms.map serializeSym).flatten ++ rest)) := by
    have := drop_add_of_drop _ (14 + r.code.length + 13 * r.clen) 2 _ _ hDpool
      (by simp [be16])
    exact this
  have hskip : skipPool (serializeIrep1 r ++ rest) r.pool.length
      (14 + r.code.length + 13 * r.clen + 2)
      = 14 + r.code.length + 13 * r.clen + 2 + ((r.pool.map serializeLit).flatten).length :=
    skipPool_serialized r.pool _ _ _ hlits hDpool2
  have hDsyms : (serializeIrep1 r ++ rest).drop
      (14 + r.code.length + 13 * r.clen + 2 + ((r.pool.map serializeLit).flatten).length) =
      be16 r.syms.length ++ ((r.syms.map serializeSym).flatten ++ rest) :=
    drop_add_of_drop _ _ _ _ _ hDpool2 rfl
  have hslen : bin_to_uint16 (serializeIrep1 r ++ rest)
      (14 + r.code.length + 13 * r.clen + 2 + ((r.pool.map serializeLit).flatten).length)
      = r.syms.length :=
    read16_of_drop _ _ _ _ hDsyms hsyms
  have halloc : mrbc_alloc st = (some st.nextId,
      { st with budget := st.budget - 1, nextId := st.nextId + 1,
                live := st.live ++ [st.nextId] }) := by
    rw [mrbc_alloc, if_neg (by omega)]
  constructor
  · simp only [load_irep_1, Nat.zero_add]
    rw [h16_4, h16_6, h16_8, h16_10, h16_12, hplen, hskip, hslen, halloc]
    rfl
  · simp only [load_irep_1, Nat.zero_add]
    rw [h16_4, h16_6, h16_8, h16_10, h16_12, hplen, hskip, hslen, halloc]
    simpa using h32

/-- A small concrete producer-side record for the C4 witness. -/
def c4src : IrepSrc :=
  { record_size := 18, nlocals := 2, nregs := 3, rlen := 1, clen := 1,
    code := [7, 8], catches := List.replicate 13 0,
    pool := [.int32 [1, 2, 3, 4], .float [1, 2, 3, 4, 5, 6, 7, 8]],
    syms := [[65]] }

theorem C4_loader_round_trip_witness :
    (load_irep_1 (serializeIrep1 c4src ++ [9, 9]) 0 ⟨2, 0, [], 10, ⟨[]⟩⟩).1.map
        (fun irep => (irep.nlocals, irep.nregs, irep.rlen, irep.clen,
                      irep.ilen, irep.plen, irep.slen))
      = some (2, 3, 1, 1, 2, 2, 1) ∧
    (load_irep_1 (serializeIrep1 c4src ++ [9, 9]) 0 ⟨2, 0, [], 10, ⟨[]⟩⟩).2.2 = 18 :=
  C4_loader_round_trip c4src [9, 9] ⟨2, 0, [], 10, ⟨[]⟩⟩
    (by
      refine ⟨by decide, by decide, by decide, by decide, by decide,
        by decide, by decide, by decide, by decide, ?_, ?_⟩
      · intro l hl
        simp only [c4src, List.mem_cons, List.not_mem_nil, or_false] at hl
        rcases hl with h | h <;> subst h <;> simp [litWf]
      · intro s hs
        simp only [c4src, List.mem_cons, List.not_mem_nil, or_false] at hs
        subst hs
        decide)
    (by decide)

end Load

namespace CStr

/-- The value type tags used by c_string.c (MRB_TT_...). -/
inductive TT where
  | NIL
  | FALSE
  | TRUE
  | FIXNUM
  | FLOAT
  | SYMBOL
  | STRING
  | OTHER : Nat → TT
deriving Repr, DecidableEq

/-- The mrb_string handle: refcount header, redundant type tag, logical size
and the allocated data buffer.  A buffer byte is `none` while it has never
been written (the C allocator hands out uninitialized memory). -/
structure StrObj where
  ref_count : Nat
  tt : TT
  size : Nat
  data : List (Option Nat)
deriving Repr, DecidableEq

/-- An mrb_value as c_string.c uses it: the tag, the integer payload, and
the string handle pointer (`none` = NULL). -/
structure MrbValue where
  tt : TT
  i : Int
  str : Option Nat
deriving Repr, DecidableEq

/-- The string heap: handle store (ids are indices) plus the allocator
budget — an allocation succeeds iff budget is positive, matching the C
allocator's NULL return on exhaustion. -/
structure SHeap where
  budget : Nat
  store : List StrObj
deriving Repr, DecidableEq

/-- Dereferencing an invalid handle yields this dummy; every theorem below
hypothesizes valid handles, where it is never used. -/
def nullObj : StrObj := ⟨0, .STRING, 0, []⟩

/-- mruby/c error code returned by `mrbc_string_append` on realloc failure.
Modelled from the spec: the exact enum value of E_NOMEMORY_ERROR is in a
header outside this repository snapshot; only its being nonzero matters. -/
def E_NOMEMORY_ERROR : Int := 1

/-- memcpy of defined bytes into a buffer. -/
def writeBytes (buf : List (Option Nat)) (ofs : Nat) : List Nat → List (Option Nat)
  | [] => buf
  | b :: rest => writeBytes (buf.set ofs (some b)) (ofs + 1) rest

/-- memcpy between buffers (the source bytes may themselves be undefined). -/
def copyBuf (dst : List (Option Nat)) (dofs : Nat) (src : List (Option Nat))
    (sofs : Nat) : Nat → List (Option Nat)
  | 0 => dst
  | n + 1 => copyBuf (dst.set dofs (src.getD sofs none)) (dofs + 1) src (sofs + 1) n

/-- `mrbc_realloc` of a data buffer to `n` bytes: keeps the old contents,
any grown tail is uninitialized. -/
def reallocBuf (old : List (Option Nat)) (n : Nat) : List (Option Nat) :=
  old.take n ++ List.replicate (n - old.length) none

/-- Embedding of `mrbc_string_new` (c_string.c lines 35-69).  The value's
tag is set to MRB_TT_STRING before anything can fail; failing to allocate
the handle, or failing to allocate the buffer (which frees the handle
again), leaves the handle pointer NULL.  On success the handle has refcount
1, the requested size, and a `len+1`-byte buffer filled from `src` plus a
NUL — or just a NUL in byte 0 when `src` is NULL.  The two allocations each
consume one unit of budget. -/
def mrbc_string_new (hp : SHeap) (src : Option (List Nat)) (len : Nat) :
    MrbValue × SHeap :=
  if hp.budget = 0 then
    ({ tt := .STRING, i := 0, str := none }, hp)
  else if hp.budget = 1 then
    ({ tt := .STRING, i := 0, str := none }, { hp with budget := 0 })
  else
    let buf0 : List (Option Nat) := List.replicate (len + 1) none
    let buf :=
      match src with
      | none => buf0.set 0 (some 0)
      | some s => (writeBytes buf0 0 (s.take len)).set len (some 0)
    let h : StrObj := { ref_count := 1, tt := .STRING, size := len, data := buf }
    ({ tt := .STRING, i := 0, str := some hp.store.length },
     { budget := hp.budget - 2, store := hp.store ++ [h] })

/-- Embedding of `mrbc_string_add` (c_string.c lines 145-157): allocate a
fresh string of the combined size, copy s1's bytes, then s2's bytes plus
its NUL terminator.  A NULL handle value propagates on allocation failure.
Dereferencing a NULL input handle is undefined in C; the model returns the
NULL string value there and every theorem hypothesizes valid inputs. -/
def mrbc_string_add (hp : SHeap) (v1 v2 : MrbValue) : MrbValue × SHeap :=
  match v1.str, v2.str with
  | some i1, some i2 =>
    let h1 := hp.store.getD i1 nullObj
    let h2 := hp.store.getD i2 nullObj
    let r := mrbc_string_new hp none (h1.size + h2.size)
    match r.1.str with
    | none => (r.1, r.2)
    | some iv =>
      let hv := r.2.store.getD iv nullObj
      let buf1 := copyBuf hv.data 0 h1.data 0 h1.size
      let buf2 := copyBuf buf1 h1.size h2.data 0 (h2.size + 1)
      (r.1, { r.2 with store := r.2.store.set iv { hv with data := buf2 } })
  | _, _ => ({ tt := .STRING, i := 0, str := none }, hp)

/-- Embedding of `mrbc_string_append` (c_string.c lines 168-187): the
appended length is s2's size for a string, and 1 for anything else; the
buffer is realloc'd to `len1+len2+1`, then string bytes (plus NUL) or the
integer's low byte (plus NUL) are written — and nothing is written for any
other tag.  s1's size grows by len2 either way. -/
def mrbc_string_append (hp : SHeap) (v1 v2 : MrbValue) : Int × SHeap :=
  match v1.str with
  | none => (0, hp)
  | some i1 =>
    let h1 := hp.store.getD i1 nullObj
    let len1 := h1.size
    let len2 := if v2.tt = .STRING then (hp.store.getD (v2.str.getD 0) nullObj).size else 1
    if hp.budget = 0 then (E_NOMEMORY_ERROR, hp)
    else
      let buf := reallocBuf h1.data (len1 + len2 + 1)
      let buf2 :=
        if v2.tt = .STRING then
          copyBuf buf len1 (hp.store.getD (v2.str.getD 0) nullObj).data 0 (len2 + 1)
        else if v2.tt = .FIXNUM then
          (buf.set len1 (some (v2.i % 256).toNat)).set (len1 + 1) (some 0)
        else buf
      (0, { budget := hp.budget - 1,
            store := hp.store.set i1 { h1 with size := len1 + len2, data := buf2 } })

/-! Buffer lemmas. -/

theorem getD_set_general {α : Type} (d : α) (buf : List α) (j : Nat) (x : α) (i : Nat) :
    (buf.set j x).getD i d = if i = j ∧ j < buf.length then x else buf.getD i d := by
  by_cases hij : i = j
  · subst hij
    by_cases hj : i < buf.length
    · simp [List.getD_eq_getElem?_getD, List.getElem?_set_self hj, hj]
    · rw [List.set_eq_of_length_le (by omega)]
      simp [hj]
  · simp [List.getD_eq_getElem?_getD, List.getElem?_set_ne (fun h => hij h.symm), hij]

theorem writeBytes_length : ∀ (bs : List Nat) (buf : List (Option Nat)) (ofs : Nat),
    (writeBytes buf ofs bs).length = buf.length := by
  intro bs
  induction bs with
  | nil => intro buf ofs; rfl
  | cons b rest ih =>
    intro buf ofs
    rw [writeBytes, ih]
    simp

theorem writeBytes_getD : ∀ (bs : List Nat) (buf : List (Option Nat)) (ofs : Nat),
    ofs + bs.length ≤ buf.length → ∀ i,
    (writeBytes buf ofs bs).getD i none =
      (if ofs ≤ i ∧ i < ofs + bs.length then some (bs.getD (i - ofs) 0)
       else buf.getD i none) := by
  intro bs
  induction bs with
  | nil =>
    intro buf ofs _ i
    rw [if_neg (by simp only [List.length_nil, Nat.add_zero]; omega)]
    rfl
  | cons b rest ih =>
    intro buf ofs hlen i
    simp only [List.length_cons] at hlen
    rw [writeBytes]
    rw [ih (buf.set ofs (some b)) (ofs + 1)
      (by rw [List.length_set]; omega) i]
    by_cases hin : ofs + 1 ≤ i ∧ i < ofs + 1 + rest.length
    · rw [if_pos hin, if_pos (by simp only [List.length_cons]; omega)]
      have hidx : i - ofs = (i - (ofs + 1)) + 1 := by omega
      rw [hidx]
      rfl
    · rw [if_neg hin]
      rw [getD_set_general]
      by_cases hi0 : i = ofs
      · subst hi0
        rw [if_pos ⟨rfl, by omega⟩, if_pos (by simp only [List.length_cons]; omega)]
        simp
      · rw [if_neg (by intro h; exact hi0 h.1),
          if_neg (by simp only [List.length_cons]; omega)]

theorem copyBuf_length : ∀ (n : Nat) (dst : List (Option Nat)) (dofs : Nat)
    (src : List (Option Nat)) (sofs : Nat),
    (copyBuf dst dofs src sofs n).length = dst.length := by
  intro n
  induction n with
  | zero => intro dst dofs src sofs; rfl
  | succ m ih =>
    intro dst dofs src sofs
    rw [copyBuf, ih]
    simp

theorem copyBuf_getD : ∀ (n : Nat) (dst : List (Option Nat)) (dofs : Nat)
    (src : List (Option Nat)) (sofs : Nat), dofs + n ≤ dst.length → ∀ i,
    (copyBuf dst dofs src sofs n).getD i none =
      (if dofs ≤ i ∧ i < dofs + n then src.getD (sofs + (i - dofs)) none
       else dst.getD i none) := by
  intro n
  induction n with
  | zero =>
    intro dst dofs src sofs _ i
    rw [if_neg (by omega)]
    rfl
  | succ m ih =>
    intro dst dofs src sofs hlen i
    rw [copyBuf]
    rw [ih (dst.set dofs (src.getD sofs none)) (dofs + 1) src (sofs + 1)
      (by simp only [List.length_set]; omega) i]
    by_cases hin : dofs + 1 ≤ i ∧ i < dofs + 1 + m
    · rw [if_pos hin, if_pos (by omega)]
      have : sofs + 1 + (i - (dofs + 1)) = sofs + (i - dofs) := by omega
      rw [this]
    · rw [if_neg hin]
      rw [getD_set_general]
      by_cases hi0 : i = dofs
      · subst hi0
        rw [if_pos ⟨rfl, by omega⟩, if_pos (by omega)]
        simp
      · rw [if_neg (by intro h; exact hi0 h.1), if_neg (by omega)]

theorem string_new_success (hp : SHeap) (src : Option (List Nat)) (len : Nat)
    (hb : 2 ≤ hp.budget) :
    mrbc_string_new hp src len =
      (⟨.STRING, 0, some hp.store.length⟩,
       ⟨hp.budget - 2, hp.store ++
         [⟨1, .STRING, len,
           (match src with
            | none => (List.replicate (len + 1) (none : Option Nat)).set 0 (some 0)
            | some s => (writeBytes (List.replicate (len + 1) none) 0 (s.take len)).set
                len (some 0))⟩]⟩) := by
  rw [mrbc_string_new, if_neg (by omega), if_neg (by omega)]

/-- C8: appending a value that is neither a string nor an integer computes
`len2 = 1`: the call succeeds (returns 0), s1's size grows by exactly one,
and no defined byte is appended — the buffer is realloc'd one byte longer
and that byte is left uninitialized. -/
theorem C8_string_append_other_type (hp : SHeap) (v1 v2 : MrbValue) (i1 : Nat)
    (hv1 : v1.str = some i1) (hi1 : i1 < hp.store.length)
    (hwf : (hp.store.getD i1 nullObj).data.length = (hp.store.getD i1 nullObj).size + 1)
    (hs : v2.tt ≠ .STRING) (hf : v2.tt ≠ .FIXNUM) (hb : 0 < hp.budget) :
    (mrbc_string_append hp v1 v2).1 = 0 ∧
    ((mrbc_string_append hp v1 v2).2.store.getD i1 nullObj).size
      = (hp.store.getD i1 nullObj).size + 1 ∧
    ((mrbc_string_append hp v1 v2).2.store.getD i1 nullObj).data
      = (hp.store.getD i1 nullObj).data ++ [none] := by
  have hstep : mrbc_string_append hp v1 v2 =
      (0, { budget := hp.budget - 1,
            store := hp.store.set i1
              { hp.store.getD i1 nullObj with
                size := (hp.store.getD i1 nullObj).size + 1,
                data := reallocBuf (hp.store.getD i1 nullObj).data
                  ((hp.store.getD i1 nullObj).size + 1 + 1) } }) := by
    rw [mrbc_string_append]
    simp only [hv1]
    rw [if_neg hs, if_neg (by omega : ¬hp.budget = 0), if_neg hs, if_neg hf]
  rw [hstep]
  have hget : (hp.store.set i1
      { hp.store.getD i1 nullObj with
        size := (hp.store.getD i1 nullObj).size + 1,
        data := reallocBuf (hp.store.getD i1 nullObj).data
          ((hp.store.getD i1 nullObj).size + 1 + 1) }).getD i1 nullObj =
      { hp.store.getD i1 nullObj with
        size := (hp.store.getD i1 nullObj).size + 1,
        data := reallocBuf (hp.store.getD i1 nullObj).data
          ((hp.store.getD i1 nullObj).size + 1 + 1) } := by
    rw [getD_set_general, if_pos ⟨rfl, hi1⟩]
  refine ⟨rfl, ?_, ?_⟩
  · rw [hget]
  · rw [hget]
    show reallocBuf (hp.store.getD i1 nullObj).data
        ((hp.store.getD i1 nullObj).size + 1 + 1)
      = (hp.store.getD i1 nullObj).data ++ [none]
    rw [reallocBuf, hwf]
    rw [List.take_of_length_le (by omega)]
    congr 1
    have h2 : (hp.store.getD i1 nullObj).size + 1 + 1
        - ((hp.store.getD i1 nullObj).size + 1) = 1 := by omega
    rw [h2]
    rfl

theorem C8_string_append_other_type_witness :
    (mrbc_string_append ⟨3, [⟨1, .STRING, 1, [some 74, some 0]⟩]⟩
      ⟨.STRING, 0, some 0⟩ ⟨.NIL, 0, none⟩).1 = 0 ∧
    ((mrbc_string_append ⟨3, [⟨1, .STRING, 1, [some 74, some 0]⟩]⟩
      ⟨.STRING, 0, some 0⟩ ⟨.NIL, 0, none⟩).2.store.getD 0 nullObj).size = 1 + 1 ∧
    ((mrbc_string_append ⟨3, [⟨1, .STRING, 1, [some 74, some 0]⟩]⟩
      ⟨.STRING, 0, some 0⟩ ⟨.NIL, 0, none⟩).2.store.getD 0 nullObj).data
      = [some 74, some 0] ++ [none] :=
  C8_string_append_other_type ⟨3, [⟨1, .STRING, 1, [some 74, some 0]⟩]⟩
    ⟨.STRING, 0, some 0⟩ ⟨.NIL, 0, none⟩ 0 rfl (by decide) (by decide)
    (by decide) (by decide) (by decide)

/-- C9 counterexample: with `src = NULL` and `len = 1` a successful
`mrbc_string_new` returns a string whose buffer is NOT NUL-terminated at
index `len` — only byte 0 is written, byte 1 stays uninitialized — refuting
the claim that every successful result is NUL-terminated at index `len`. -/
theorem C9_string_new_nul_counterexample :
    (mrbc_string_new ⟨2, []⟩ none 1).1.tt = .STRING ∧
    (mrbc_string_new ⟨2, []⟩ none 1).1.str = some 0 ∧
    ((mrbc_string_new ⟨2, []⟩ none 1).2.store.getD 0 nullObj).size = 1 ∧
    ¬((mrbc_string_new ⟨2, []⟩ none 1).2.store.getD 0 nullObj).data.getD 1 none
        = some 0 := by
  refine ⟨rfl, rfl, rfl, ?_⟩
  decide

/-- C9 (amended): `mrbc_string_new` always returns a value tagged
MRB_TT_STRING; on any allocation failure (either the handle or the buffer)
the handle pointer is NULL and nothing was added to the heap; on success the
handle has refcount 1 and the requested size, and the buffer is the first
`len` bytes of `src` NUL-terminated at index `len` when `src` is non-NULL —
but when `src` is NULL only byte 0 is NUL and all other bytes, including
index `len`, are uninitialized. -/
theorem C9_string_new_spec (hp : SHeap) (src : Option (List Nat)) (len : Nat) :
    (mrbc_string_new hp src len).1.tt = .STRING ∧
    (hp.budget < 2 → (mrbc_string_new hp src len).1.str = none ∧
      (mrbc_string_new hp src len).2.store = hp.store) ∧
    (2 ≤ hp.budget →
      (mrbc_string_new hp src len).1.str = some hp.store.length ∧
      ∃ h, (mrbc_string_new hp src len).2.store = hp.store ++ [h] ∧
        h.ref_count = 1 ∧ h.tt = .STRING ∧ h.size = len ∧
        h.data.length = len + 1 ∧
        (src = none → h.data.getD 0 none = some 0 ∧
          ∀ i, 1 ≤ i → i ≤ len → h.data.getD i none = none) ∧
        (∀ s, src = some s → len ≤ s.length →
          h.data.getD len none = some 0 ∧
          ∀ i, i < len → h.data.getD i none = some (s.getD i 0))) := by
  refine ⟨?_, ?_, ?_⟩
  · rw [mrbc_string_new]
    by_cases h0 : hp.budget = 0
    · rw [if_pos h0]
    · rw [if_neg h0]
      by_cases h1 : hp.budget = 1
      · rw [if_pos h1]
      · rw [if_neg h1]
  · intro hlt
    rw [mrbc_string_new]
    by_cases h0 : hp.budget = 0
    · rw [if_pos h0]
      exact ⟨rfl, rfl⟩
    · rw [if_neg h0, if_pos (by omega)]
      exact ⟨rfl, rfl⟩
  · intro hb
    rw [string_new_success hp src len hb]
    refine ⟨rfl, _, rfl, rfl, rfl, rfl, ?_, ?_, ?_⟩
    · cases src with
      | none =>
        simp only
        rw [List.length_set, List.length_replicate]
      | some s =>
        simp only
        rw [List.length_set, writeBytes_length, List.length_replicate]
    · intro hsrc
      subst hsrc
      simp only
      constructor
      · rw [getD_set_general,
          if_pos ⟨rfl, by rw [List.length_replicate]; omega⟩]
      · intro i h1i hile
        rw [getD_set_general, if_neg (by intro h; omega)]
        rw [List.getD_eq_getElem?_getD, List.getElem?_replicate]
        rw [if_pos (by omega)]
        rfl
    · intro s hsrc hlen
      subst hsrc
      simp only
      have hwl : (writeBytes (List.replicate (len + 1) (none : Option Nat)) 0
          (s.take len)).length = len + 1 := by
        rw [writeBytes_length, List.length_replicate]
      constructor
      · rw [getD_set_general, if_pos ⟨rfl, by omega⟩]
      · intro i hi
        rw [getD_set_general, if_neg (by intro h; omega)]
        rw [writeBytes_getD _ _ 0
          (by rw [List.length_replicate, List.length_take]; omega)]
        rw [if_pos ⟨by omega, by rw [List.length_take]; omega⟩]
        rw [show i - 0 = i from rfl]
        congr 1
        rw [List.getD_eq_getElem?_getD, List.getD_eq_getElem?_getD,
          List.getElem?_take_of_lt hi]

theorem C9_string_new_spec_witness :
    (mrbc_string_new ⟨2, []⟩ (some [65]) 1).1.tt = .STRING :=
  (C9_string_new_spec ⟨2, []⟩ (some [65]) 1).1

theorem getD_append_len {α : Type} (d : α) (l : List α) (x : α) :
    (l ++ [x]).getD l.length d = x := by
  simp [List.getD_eq_getElem?_getD, List.getElem?_concat_length]

theorem getD_append_lt2 {α : Type} (d : α) (l l2 : List α) (i : Nat) (hi : i < l.length) :
    (l ++ l2).getD i d = l.getD i d := by
  simp [List.getD_eq_getElem?_getD, List.getElem?_append_left hi]

theorem string_new_success_none (hp : SHeap) (len : Nat) (hb : 2 ≤ hp.budget) :
    mrbc_string_new hp none len =
      (⟨.STRING, 0, some hp.store.length⟩,
       ⟨hp.budget - 2, hp.store ++
         [(⟨1, .STRING, len,
            (List.replicate (len + 1) (none : Option Nat)).set 0 (some 0)⟩ : StrObj)]⟩) := by
  rw [string_new_success hp none len hb]

/-- C10: a successful `mrbc_string_add` returns a fresh string (a new
handle) of size `s1.size + s2.size` whose bytes are the bytes of s1
followed by the bytes of s2 with s2's trailing NUL, and it leaves the
handles of both s1 and s2 — sizes and data — unchanged. -/
theorem C10_string_add_spec (hp : SHeap) (v1 v2 : MrbValue) (i1 i2 : Nat)
    (hv1 : v1.str = some i1) (hv2 : v2.str = some i2)
    (hi1 : i1 < hp.store.length) (hi2 : i2 < hp.store.length)
    (hw1 : (hp.store.getD i1 nullObj).size + 1 ≤ (hp.store.getD i1 nullObj).data.length)
    (hw2 : (hp.store.getD i2 nullObj).size + 1 ≤ (hp.store.getD i2 nullObj).data.length)
    (hnul2 : (hp.store.getD i2 nullObj).data.getD (hp.store.getD i2 nullObj).size none
      = some 0)
    (hb : 2 ≤ hp.budget) :
    (mrbc_string_add hp v1 v2).1.str = some hp.store.length ∧
    ((mrbc_string_add hp v1 v2).2.store.getD hp.store.length nullObj).size
      = (hp.store.getD i1 nullObj).size + (hp.store.getD i2 nullObj).size ∧
    (∀ i, i < (hp.store.getD i1 nullObj).size →
      ((mrbc_string_add hp v1 v2).2.store.getD hp.store.length nullObj).data.getD i none
        = (hp.store.getD i1 nullObj).data.getD i none) ∧
    (∀ j, j < (hp.store.getD i2 nullObj).size →
      ((mrbc_string_add hp v1 v2).2.store.getD hp.store.length nullObj).data.getD
          ((hp.store.getD i1 nullObj).size + j) none
        = (hp.store.getD i2 nullObj).data.getD j none) ∧
    ((mrbc_string_add hp v1 v2).2.store.getD hp.store.length nullObj).data.getD
        ((hp.store.getD i1 nullObj).size + (hp.store.getD i2 nullObj).size) none
      = some 0 ∧
    (mrbc_string_add hp v1 v2).2.store.getD i1 nullObj = hp.store.getD i1 nullObj ∧
    (mrbc_string_add hp v1 v2).2.store.getD i2 nullObj = hp.store.getD i2 nullObj := by
  set A1 := hp.store.getD i1 nullObj with hA1
  set A2 := hp.store.getD i2 nullObj with hA2
  set base := (List.replicate (A1.size + A2.size + 1) (none : Option Nat)).set 0 (some 0)
    with hbase
  set buf1 := copyBuf base 0 A1.data 0 A1.size with hbuf1
  set buf2 := copyBuf buf1 A1.size A2.data 0 (A2.size + 1) with hbuf2
  have hnew := string_new_success_none hp (A1.size + A2.size) hb
  have hstep : mrbc_string_add hp v1 v2 =
      (⟨.STRING, 0, some hp.store.length⟩,
       ⟨hp.budget - 2,
        (hp.store ++ [(⟨1, .STRING, A1.size + A2.size, base⟩ : StrObj)]).set
          hp.store.length (⟨1, .STRING, A1.size + A2.size, buf2⟩ : StrObj)⟩) := by
    rw [mrbc_string_add]
    simp only [hv1, hv2]
    rw [← hA1, ← hA2]
    simp only [hnew, ← hbase]
    rw [getD_append_len nullObj hp.store]
  have hsetlen : hp.store.length <
      (hp.store ++ [(⟨1, .STRING, A1.size + A2.size, base⟩ : StrObj)]).length := by
    simp only [List.length_append, List.length_singleton]
    omega
  have hobj : (mrbc_string_add hp v1 v2).2.store.getD hp.store.length nullObj =
      (⟨1, .STRING, A1.size + A2.size, buf2⟩ : StrObj) := by
    rw [hstep]
    show ((hp.store ++ [(⟨1, .STRING, A1.size + A2.size, base⟩ : StrObj)]).set
      hp.store.length (⟨1, .STRING, A1.size + A2.size, buf2⟩ : StrObj)).getD
        hp.store.length nullObj = _
    rw [getD_set_general, if_pos ⟨rfl, hsetlen⟩]
  have hlenbase : base.length = A1.size + A2.size + 1 := by
    rw [hbase, List.length_set, List.length_replicate]
  have hlen1 : buf1.length = A1.size + A2.size + 1 := by
    rw [hbuf1, copyBuf_length, hlenbase]
  have hc1 : ∀ i, i < A1.size → buf2.getD i none = A1.data.getD i none := by
    intro i hi
    rw [hbuf2, copyBuf_getD _ _ _ _ _ (by omega) i, if_neg (by omega)]
    rw [hbuf1, copyBuf_getD _ _ _ _ _ (by omega) i, if_pos ⟨by omega, by omega⟩]
    rw [show 0 + (i - 0) = i by omega]
  have hc2 : ∀ j, j < A2.size + 1 →
      buf2.getD (A1.size + j) none = A2.data.getD j none := by
    intro j hj
    rw [hbuf2, copyBuf_getD _ _ _ _ _ (by omega) (A1.size + j),
      if_pos ⟨by omega, by omega⟩]
    rw [show 0 + (A1.size + j - A1.size) = j by omega]
  refine ⟨by rw [hstep], by rw [hobj], ?_, ?_, ?_, ?_, ?_⟩
  · intro i hi
    rw [hobj]
    exact hc1 i hi
  · intro j hj
    rw [hobj]
    exact hc2 j (by omega)
  · rw [hobj]
    rw [hc2 A2.size (by omega)]
    exact hnul2
  · rw [hstep]
    show ((hp.store ++ [(⟨1, .STRING, A1.size + A2.size, base⟩ : StrObj)]).set
      hp.store.length (⟨1, .STRING, A1.size + A2.size, buf2⟩ : StrObj)).getD
        i1 nullObj = A1
    rw [getD_set_general, if_neg (by intro h; omega)]
    rw [getD_append_lt2 nullObj hp.store _ i1 hi1]
  · rw [hstep]
    show ((hp.store ++ [(⟨1, .STRING, A1.size + A2.size, base⟩ : StrObj)]).set
      hp.store.length (⟨1, .STRING, A1.size + A2.size, buf2⟩ : StrObj)).getD
        i2 nullObj = A2
    rw [getD_set_general, if_neg (by intro h; omega)]
    rw [getD_append_lt2 nullObj hp.store _ i2 hi2]

/-- Concrete heap for the C10 witness: two one-byte strings "A" and "B". -/
def c10hp : SHeap :=
  ⟨2, [⟨1, .STRING, 1, [some 65, some 0]⟩, ⟨1, .STRING, 1, [some 66, some 0]⟩]⟩

theorem C10_string_add_spec_witness :
    (mrbc_string_add c10hp ⟨.STRING, 0, some 0⟩ ⟨.STRING, 0, some 1⟩).1.str
      = some 2 ∧
    ((mrbc_string_add c10hp ⟨.STRING, 0, some 0⟩ ⟨.STRING, 0, some 1⟩).2.store.getD 2
        nullObj).size = 2 ∧
    ((mrbc_string_add c10hp ⟨.STRING, 0, some 0⟩ ⟨.STRING, 0, some 1⟩).2.store.getD 2
        nullObj).data.getD 0 none = some 65 ∧
    ((mrbc_string_add c10hp ⟨.STRING, 0, some 0⟩ ⟨.STRING, 0, some 1⟩).2.store.getD 2
        nullObj).data.getD 1 none = some 66 ∧
    ((mrbc_string_add c10hp ⟨.STRING, 0, some 0⟩ ⟨.STRING, 0, some 1⟩).2.store.getD 2
        nullObj).data.getD 2 none = some 0 ∧
    (mrbc_string_add c10hp ⟨.STRING, 0, some 0⟩ ⟨.STRING, 0, some 1⟩).2.store.getD 0
        nullObj = ⟨1, .STRING, 1, [some 65, some 0]⟩ ∧
    (mrbc_string_add c10hp ⟨.STRING, 0, some 0⟩ ⟨.STRING, 0, some 1⟩).2.store.getD 1
        nullObj = ⟨1, .STRING, 1, [some 66, some 0]⟩ := by
  have h := C10_string_add_spec c10hp ⟨.STRING, 0, some 0⟩ ⟨.STRING, 0, some 1⟩ 0 1
    rfl rfl (by decide) (by decide) (by decide) (by decide) (by decide) (by decide)
  obtain ⟨h1, h2, h3, h4, h5, h6, h7⟩ := h
  exact ⟨h1, h2,
    (h3 0 (by decide)).trans (by decide),
    (h4 0 (by decide)).trans (by decide),
    h5,
    h6.trans (by decide),
    h7.trans (by decide)⟩

end CStr

/-! ## c_object.c — Object#new (C5) and Object#raise (C6)

`c_object_new` and `c_object_raise` (c_object.c lines 44-93 and 291-332)
are embedded from the source.  Their helpers live in files that are not
among the provided sources (vm.c, class.c, opcode.h, the symbol table of
built-in classes), so those helpers are modelled from the spec and are
marked as such below. -/

namespace CObj

/-- Modelled from the spec: opcode.h is not among the provided sources; the
spec only fixes that the synthetic IREP is `SEND initialize` followed by
`ABORT`, so OP_SEND and OP_ABORT are two distinct byte constants. -/
def OP_SEND : Nat := 1

/-- Modelled from the spec: the ABORT opcode byte (see OP_SEND). -/
def OP_ABORT : Nat := 2

/-- Modelled from the spec: the symbol id MRBC_SYM of the method name the
constructor dispatches to (the `initialize` symbol). -/
def initSym : Nat := 3

/-- Modelled from the spec: class id of MRBC_CLASS(RuntimeError). -/
def RuntimeError_id : Nat := 10

/-- Modelled from the spec: class id of MRBC_CLASS(TypeError). -/
def TypeError_id : Nat := 11

/-- Value tags relevant to c_object.c. -/
inductive VTT where
  | NIL
  | FIXNUM
  | STRING
  | CLASS
  | INSTANCE
  | EXCEPTION
  | EMPTY
  deriving Repr, DecidableEq

/-- A tagged value: `cls` is meaningful for CLASS/INSTANCE tags, `obj` is
the heap handle for STRING/INSTANCE tags. -/
structure OValue where
  tt : VTT
  cls : Nat
  obj : Nat
  deriving Repr, DecidableEq

/-- mrbc_nil_value(). -/
def mrbc_nil_value : OValue := ⟨.NIL, 0, 0⟩

/-- The task state touched by c_object_raise: the exc slot (tag + exception
class), the exc_message value, and the refcount heap of string objects so
that `mrbc_incref` is observable. -/
structure RState where
  exc_tt : VTT
  exc : Option Nat
  exc_message : OValue
  strheap : List Nat
  deriving Repr, DecidableEq

/-- `mrbc_incref` on the refcount heap: bumps the refcount of the object a
STRING value points to (the only incref'd values in c_object_raise are
strings). -/
def mrbc_incref (h : List Nat) (v : OValue) : List Nat :=
  if v.tt = .STRING then h.set v.obj (h.getD v.obj 0 + 1) else h

/-- Embedding of `c_object_raise` (c_object.c lines 291-332): four argument
shapes — no argument, one string, one class, one class plus one string —
and a TypeError fallback for anything else.  `v` is the register window
(`v[0]` is the receiver). -/
def c_object_raise (vm : RState) (v : List OValue) (argc : Nat) : RState :=
  let vm1 : RState := { vm with exc_tt := .EXCEPTION }
  if argc = 0 then
    { vm1 with exc := some RuntimeError_id, exc_message := mrbc_nil_value }
  else if argc = 1 ∧ (v.getD 1 mrbc_nil_value).tt = .STRING then
    { vm1 with
      strheap := mrbc_incref vm1.strheap (v.getD 1 mrbc_nil_value)
      exc := some RuntimeError_id
      exc_message := v.getD 1 mrbc_nil_value }
  else if argc = 1 ∧ (v.getD 1 mrbc_nil_value).tt = .CLASS then
    { vm1 with
      exc := some (v.getD 1 mrbc_nil_value).cls
      exc_message := mrbc_nil_value }
  else if argc = 2 ∧ (v.getD 1 mrbc_nil_value).tt = .CLASS ∧
      (v.getD 2 mrbc_nil_value).tt = .STRING then
    { vm1 with
      strheap := mrbc_incref vm1.strheap (v.getD 2 mrbc_nil_value)
      exc := some (v.getD 1 mrbc_nil_value).cls
      exc_message := v.getD 2 mrbc_nil_value }
  else
    { vm1 with exc := some TypeError_id, exc_message := mrbc_nil_value }

/-- The synthetic IREP built by c_object_new: instruction length, the
instruction bytes, and the symbol stored in its data area. -/
structure SynIrep where
  ilen : Nat
  code : List Nat
  sym : Nat
  deriving Repr, DecidableEq

/-- Interpreter state touched by c_object_new: allocator budget, a bump
pointer for fresh allocations, the instance heap (class id per instance),
the saved/restored trio cur_irep / cur_regs / inst, and a scratch word
standing for all the interpreter state the run loop may mutate. -/
structure VMSt where
  budget : Nat
  next_ptr : Nat
  insts : List Nat
  cur_irep : Nat
  cur_regs : Nat
  inst : Nat
  scratch : Nat
  deriving Repr, DecidableEq

/-- Modelled from the spec: class.c is not among the provided sources;
`instance_new(class)` allocates an OBJECT bound to its class (appended to
the instance heap) and yields NULL when the allocator fails. -/
def mrbc_instance_new (vm : VMSt) (cls : Nat) : VMSt × Option Nat :=
  if vm.budget = 0 then (vm, none)
  else ({ vm with budget := vm.budget - 1, insts := vm.insts ++ [cls] },
    some vm.insts.length)

/-- The `mrbc_alloc(vm, sizeof(mrbc_irep) + sizeof(mrbc_sym))` call in
c_object_new: a fresh pointer, or NULL on exhaustion. -/
def alloc_irep (vm : VMSt) : VMSt × Option Nat :=
  if vm.budget = 0 then (vm, none)
  else ({ vm with budget := vm.budget - 1, next_ptr := vm.next_ptr + 1 },
    some vm.next_ptr)

/-- The `while( mrbc_vm_run(vm) == 0 );` loop.  `mrbc_vm_run` lives in
vm.c, which is not among the provided sources, so it is a parameter; fuel
bounds the iteration count and `none` means the loop did not finish within
the fuel. -/
def runLoop (run : VMSt → VMSt × Int) : Nat → VMSt → Option VMSt
  | 0, _ => none
  | fuel + 1, s =>
    if (run s).2 = 0 then runLoop run fuel (run s).1 else some (run s).1

/-- Embedding of `c_object_new` (c_object.c lines 44-93).  `findInit cls`
models `mrbc_find_method(&method, v->cls, MRBC_SYM(initialize)) != 0` (the
method table lives in class.c, not among the provided sources).  `vptr`
is the address of the register window `v`.  The result is the final state,
the value stored by SET_RETURN (or the untouched `v[0]` when instance_new
fails), and the synthetic IREP handed to the run loop (`none` on the paths
that never build one); `none` overall means the run loop ran out of fuel. -/
def c_object_new (findInit : Nat → Bool) (run : VMSt → VMSt × Int)
    (fuel : Nat) (vm : VMSt) (v0 : OValue) (argc : Nat) (vptr : Nat) :
    Option (VMSt × OValue × Option SynIrep) :=
  let r1 := mrbc_instance_new vm v0.cls
  match r1.2 with
  | none => some (r1.1, v0, none)
  | some h =>
    let vm1 := r1.1
    let new_obj : OValue := ⟨.INSTANCE, v0.cls, h⟩
    if findInit v0.cls = false then
      some (vm1, new_obj, none)
    else
      let r2 := alloc_irep vm1
      match r2.2 with
      | none => some (r2.1, new_obj, none)
      | some p =>
        let vm2 := r2.1
        let irep : SynIrep := ⟨5, [OP_SEND, 0, 0, argc % 256, OP_ABORT], initSym⟩
        let cls := v0.cls
        let org_cur_irep := vm2.cur_irep
        let org_regs := vm2.cur_regs
        let org_inst := vm2.inst
        let vm3 := { vm2 with cur_irep := p, cur_regs := vptr, inst := p }
        match runLoop run fuel vm3 with
        | none => none
        | some vm4 =>
          let vm5 := { vm4 with
            cur_irep := org_cur_irep
            inst := org_inst
            cur_regs := org_regs }
          let vm6 := { vm5 with
            insts := vm5.insts.set h cls
            budget := vm5.budget + 1 }
          some (vm6, new_obj, some irep)

theorem runLoop_insts_length (run : VMSt → VMSt × Int)
    (hlen : ∀ s, ((run s).1).insts.length = s.insts.length) :
    ∀ fuel s s2, runLoop run fuel s = some s2 →
      s2.insts.length = s.insts.length := by
  intro fuel
  induction fuel with
  | zero =>
    intro s s2 h
    simp [runLoop] at h
  | succ n ih =>
    intro s s2 h
    rw [runLoop] at h
    by_cases hz : (run s).2 = 0
    · rw [if_pos hz] at h
      exact (ih (run s).1 s2 h).trans (hlen s)
    · rw [if_neg hz] at h
      cases h
      exact hlen s

theorem c_object_new_nofind (findInit : Nat → Bool) (run : VMSt → VMSt × Int)
    (fuel : Nat) (vm : VMSt) (v0 : OValue) (argc vptr : Nat)
    (hb : 1 ≤ vm.budget) (hinit : findInit v0.cls = false) :
    c_object_new findInit run fuel vm v0 argc vptr =
      some ({ vm with budget := vm.budget - 1, insts := vm.insts ++ [v0.cls] },
        (⟨.INSTANCE, v0.cls, vm.insts.length⟩ : OValue), none) := by
  have h0 : ¬ vm.budget = 0 := by omega
  simp only [c_object_new, mrbc_instance_new, if_neg h0, hinit]
  rw [if_pos trivial]

theorem c_object_new_success (findInit : Nat → Bool) (run : VMSt → VMSt × Int)
    (fuel : Nat) (vm : VMSt) (v0 : OValue) (argc vptr : Nat)
    (hb : 2 ≤ vm.budget) (hinit : findInit v0.cls = true) :
    c_object_new findInit run fuel vm v0 argc vptr =
      (runLoop run fuel
        { vm with
          budget := vm.budget - 1 - 1
          insts := vm.insts ++ [v0.cls]
          next_ptr := vm.next_ptr + 1
          cur_irep := vm.next_ptr
          cur_regs := vptr
          inst := vm.next_ptr }).map
        (fun vm4 =>
          ({ vm4 with
              cur_irep := vm.cur_irep
              inst := vm.inst
              cur_regs := vm.cur_regs
              insts := vm4.insts.set vm.insts.length v0.cls
              budget := vm4.budget + 1 },
           (⟨.INSTANCE, v0.cls, vm.insts.length⟩ : OValue),
           some (⟨5, [OP_SEND, 0, 0, argc % 256, OP_ABORT], initSym⟩ : SynIrep))) := by
  have h0 : ¬ vm.budget = 0 := by omega
  have h1 : ¬ vm.budget - 1 = 0 := by omega
  simp only [c_object_new, mrbc_instance_new, alloc_irep, if_neg h0, if_neg h1,
    hinit]
  rw [if_neg (by simp)]
  rcases hr : runLoop run fuel
      { vm with
        budget := vm.budget - 1 - 1
        insts := vm.insts ++ [v0.cls]
        next_ptr := vm.next_ptr + 1
        cur_irep := vm.next_ptr
        cur_regs := vptr
        inst := vm.next_ptr } with _ | vm4
  · rfl
  · rfl

/-- C5: whenever `c_object_new` returns (allocation succeeding and the run
loop terminating, with a run loop that does not resize the instance heap),
the returned value is the freshly allocated instance, its heap slot is
re-bound to the receiver class, and cur_irep, cur_regs and inst are exactly
the caller's; when the class has an initialize method the synthetic IREP
handed to the run loop is the 2-instruction `OP_SEND 0 0 argc; OP_ABORT`
naming the initialize symbol, and when it has none the fresh instance is
returned directly with no synthetic IREP built. -/
theorem C5_object_new_spec (findInit : Nat → Bool) (run : VMSt → VMSt × Int)
    (fuel : Nat) (vm : VMSt) (v0 : OValue) (argc vptr : Nat)
    (out : VMSt × OValue × Option SynIrep)
    (hb : 2 ≤ vm.budget)
    (hlen : ∀ s, ((run s).1).insts.length = s.insts.length)
    (hout : c_object_new findInit run fuel vm v0 argc vptr = some out) :
    out.2.1 = ⟨.INSTANCE, v0.cls, vm.insts.length⟩ ∧
    out.1.insts.getD vm.insts.length 0 = v0.cls ∧
    out.1.cur_irep = vm.cur_irep ∧
    out.1.cur_regs = vm.cur_regs ∧
    out.1.inst = vm.inst ∧
    (findInit v0.cls = true →
      out.2.2 = some ⟨5, [OP_SEND, 0, 0, argc % 256, OP_ABORT], initSym⟩) ∧
    (findInit v0.cls = false →
      out.2.2 = none ∧ out.1.budget = vm.budget - 1) := by
  by_cases hinit : findInit v0.cls = true
  · rw [c_object_new_success findInit run fuel vm v0 argc vptr hb hinit] at hout
    rcases hr : runLoop run fuel
        { vm with
          budget := vm.budget - 1 - 1
          insts := vm.insts ++ [v0.cls]
          next_ptr := vm.next_ptr + 1
          cur_irep := vm.next_ptr
          cur_regs := vptr
          inst := vm.next_ptr } with _ | vm4
    · rw [hr] at hout
      cases hout
    · rw [hr] at hout
      have h4 : vm4.insts.length = vm.insts.length + 1 := by
        have := runLoop_insts_length run hlen fuel _ vm4 hr
        rw [this]
        simp
      have hout2 := Option.some.inj hout
      subst hout2
      refine ⟨rfl, ?_, rfl, rfl, rfl, fun _ => rfl, fun hf => ?_⟩
      · show (vm4.insts.set vm.insts.length v0.cls).getD vm.insts.length 0 = v0.cls
        rw [ CStr.getD_set_general, if_pos ⟨rfl, by omega⟩]
      · rw [hinit] at hf
        cases hf
  · have hf : findInit v0.cls = false := by
      revert hinit
      cases findInit v0.cls <;> simp
    rw [c_object_new_nofind findInit run fuel vm v0 argc vptr (by omega) hf] at hout
    cases hout
    refine ⟨rfl, ?_, rfl, rfl, rfl, fun ht => ?_, fun _ => ⟨rfl, rfl⟩⟩
    · show (vm.insts ++ [v0.cls]).getD vm.insts.length 0 = v0.cls
      rw [ CStr.getD_append_len]
    · rw [hf] at ht
      cases ht

theorem C5_object_new_spec_witness :
    ((⟨1, 1, [5], 7, 8, 9, 0⟩, ⟨.INSTANCE, 5, 0⟩,
        some ⟨5, [1, 0, 0, 0, 2], 3⟩) :
      VMSt × OValue × Option SynIrep).2.1 = ⟨.INSTANCE, 5, 0⟩ ∧
    ((⟨1, 1, [5], 7, 8, 9, 0⟩, ⟨.INSTANCE, 5, 0⟩,
        some ⟨5, [1, 0, 0, 0, 2], 3⟩) :
      VMSt × OValue × Option SynIrep).1.insts.getD 0 0 = 5 ∧
    ((⟨1, 1, [5], 7, 8, 9, 0⟩, ⟨.INSTANCE, 5, 0⟩,
        some ⟨5, [1, 0, 0, 0, 2], 3⟩) :
      VMSt × OValue × Option SynIrep).1.cur_irep = 7 ∧
    ((⟨1, 1, [5], 7, 8, 9, 0⟩, ⟨.INSTANCE, 5, 0⟩,
        some ⟨5, [1, 0, 0, 0, 2], 3⟩) :
      VMSt × OValue × Option SynIrep).1.cur_regs = 8 ∧
    ((⟨1, 1, [5], 7, 8, 9, 0⟩, ⟨.INSTANCE, 5, 0⟩,
        some ⟨5, [1, 0, 0, 0, 2], 3⟩) :
      VMSt × OValue × Option SynIrep).1.inst = 9 ∧
    (true = true →
      ((⟨1, 1, [5], 7, 8, 9, 0⟩, ⟨.INSTANCE, 5, 0⟩,
          some ⟨5, [1, 0, 0, 0, 2], 3⟩) :
        VMSt × OValue × Option SynIrep).2.2
        = some ⟨5, [OP_SEND, 0, 0, 0 % 256, OP_ABORT], initSym⟩) ∧
    (true = false →
      ((⟨1, 1, [5], 7, 8, 9, 0⟩, ⟨.INSTANCE, 5, 0⟩,
          some ⟨5, [1, 0, 0, 0, 2], 3⟩) :
        VMSt × OValue × Option SynIrep).2.2 = none ∧
      ((⟨1, 1, [5], 7, 8, 9, 0⟩, ⟨.INSTANCE, 5, 0⟩,
          some ⟨5, [1, 0, 0, 0, 2], 3⟩) :
        VMSt × OValue × Option SynIrep).1.budget = 2 - 1) :=
  C5_object_new_spec (fun _ => true) (fun s => (s, 1)) 1
    ⟨2, 0, [], 7, 8, 9, 0⟩ ⟨.CLASS, 5, 0⟩ 0 3
    (⟨1, 1, [5], 7, 8, 9, 0⟩, ⟨.INSTANCE, 5, 0⟩, some ⟨5, [1, 0, 0, 0, 2], 3⟩)
    (by decide) (fun s => rfl) (by decide)

/-- C6: `raise` always tags the exc slot as an exception and, per argument
shape: no argument sets exc to RuntimeError with a nil message; one string
sets exc to RuntimeError with that string as message and its refcount
incremented; one class sets exc to that class with a nil message; a class
plus a string sets exc to the class and the string (refcount incremented)
as message. -/
theorem C6_object_raise_spec (vm : RState) (v : List OValue) (argc : Nat) :
    (c_object_raise vm v argc).exc_tt = .EXCEPTION ∧
    (argc = 0 →
      (c_object_raise vm v argc).exc = some RuntimeError_id ∧
      (c_object_raise vm v argc).exc_message = mrbc_nil_value ∧
      (c_object_raise vm v argc).strheap = vm.strheap) ∧
    (argc = 1 → (v.getD 1 mrbc_nil_value).tt = .STRING →
      (c_object_raise vm v argc).exc = some RuntimeError_id ∧
      (c_object_raise vm v argc).exc_message = v.getD 1 mrbc_nil_value ∧
      (c_object_raise vm v argc).strheap
        = vm.strheap.set (v.getD 1 mrbc_nil_value).obj
            (vm.strheap.getD (v.getD 1 mrbc_nil_value).obj 0 + 1)) ∧
    (argc = 1 → (v.getD 1 mrbc_nil_value).tt = .CLASS →
      (c_object_raise vm v argc).exc = some (v.getD 1 mrbc_nil_value).cls ∧
      (c_object_raise vm v argc).exc_message = mrbc_nil_value ∧
      (c_object_raise vm v argc).strheap = vm.strheap) ∧
    (argc = 2 → (v.getD 1 mrbc_nil_value).tt = .CLASS →
        (v.getD 2 mrbc_nil_value).tt = .STRING →
      (c_object_raise vm v argc).exc = some (v.getD 1 mrbc_nil_value).cls ∧
      (c_object_raise vm v argc).exc_message = v.getD 2 mrbc_nil_value ∧
      (c_object_raise vm v argc).strheap
        = vm.strheap.set (v.getD 2 mrbc_nil_value).obj
            (vm.strheap.getD (v.getD 2 mrbc_nil_value).obj 0 + 1)) := by
  refine ⟨?_, ?_, ?_, ?_, ?_⟩
  · simp only [c_object_raise]
    repeat' split
    all_goals rfl
  · intro h0
    simp only [c_object_raise, if_pos h0]
    exact ⟨trivial, trivial, trivial⟩
  · intro h1 hs
    have hn0 : ¬ argc = 0 := by omega
    simp only [c_object_raise, if_neg hn0, if_pos (And.intro h1 hs)]
    refine ⟨trivial, trivial, ?_⟩
    show mrbc_incref vm.strheap (v.getD 1 mrbc_nil_value) = _
    rw [mrbc_incref, if_pos hs]
  · intro h1 hc
    have hn0 : ¬ argc = 0 := by omega
    have hns : ¬(argc = 1 ∧ (v.getD 1 mrbc_nil_value).tt = .STRING) := by
      rintro ⟨-, hx⟩
      rw [hc] at hx
      cases hx
    simp only [c_object_raise, if_neg hn0, if_neg hns,
      if_pos (And.intro h1 hc)]
    exact ⟨trivial, trivial, trivial⟩
  · intro h2 hc hs
    have hn0 : ¬ argc = 0 := by omega
    have hn1s : ¬(argc = 1 ∧ (v.getD 1 mrbc_nil_value).tt = .STRING) := by
      rintro ⟨hx, -⟩
      omega
    have hn1c : ¬(argc = 1 ∧ (v.getD 1 mrbc_nil_value).tt = .CLASS) := by
      rintro ⟨hx, -⟩
      omega
    simp only [c_object_raise, if_neg hn0, if_neg hn1s, if_neg hn1c,
      if_pos (And.intro h2 (And.intro hc hs))]
    refine ⟨trivial, trivial, ?_⟩
    show mrbc_incref vm.strheap (v.getD 2 mrbc_nil_value) = _
    rw [mrbc_incref, if_pos hs]

theorem C6_object_raise_spec_witness :
    (c_object_raise ⟨.NIL, none, mrbc_nil_value, [4]⟩
        [mrbc_nil_value, ⟨.STRING, 0, 0⟩] 1).exc = some RuntimeError_id ∧
    (c_object_raise ⟨.NIL, none, mrbc_nil_value, [4]⟩
        [mrbc_nil_value, ⟨.STRING, 0, 0⟩] 1).exc_message = ⟨.STRING, 0, 0⟩ ∧
    (c_object_raise ⟨.NIL, none, mrbc_nil_value, [4]⟩
        [mrbc_nil_value, ⟨.STRING, 0, 0⟩] 1).strheap = [5] := by
  have h := C6_object_raise_spec ⟨.NIL, none, mrbc_nil_value, [4]⟩
    [mrbc_nil_value, ⟨.STRING, 0, 0⟩] 1
  obtain ⟨-, -, h2, -, -⟩ := h
  obtain ⟨ha, hb, hc⟩ := h2 rfl rfl
  exact ⟨ha, hb, hc.trans (by decide)⟩

end CObj
